import Mathlib

/-!
Verification of the cache-aside repository engine with timeline (secondary
index) support found in `app/cache/base.py` and `app/cache/redis_timeline.py`.

Modelling conventions:
* A JSON-serializable Python value is modelled by `Jso`; the Python value
  `None` is `Jso.null` (json.dumps maps it to the non-empty text "null",
  json.loads maps that text back to `None`; serialization is a bijection on
  values produced by json.dumps, so the store keeps the `Jso` itself).
  Values are opaque payloads to the engine, so only atomic shapes are
  represented; no operation of the engine inspects a value beyond null-ness.
* The Redis keyspace is a single association list from keys to entries; an
  entry is either a string value (the serialized JSON) or a set of member
  keys, together with an optional TTL (none = no expiry).  Type errors
  (e.g. GET on a set key) raise in Redis and are modelled as errors of the
  primitive.
* Backend (network) failures are modelled by a fault schedule `List Bool`
  threaded through the computation: every primitive Redis command consumes
  one entry of the schedule when it is non-empty and raises when that entry
  is true.  The empty schedule is the fault-free run.
* Python dicts are association lists without duplicate keys; insertion
  updates in place, preserving order, like a Python dict.
* Python strings are Lean strings; str.split is modelled on the
  underlying character list exactly like the Python single-separator split.
-/

namespace CacheSpec

/-- A JSON value as handled by json.dumps / json.loads.  `null` is the
image of Python `None`. -/
inductive Jso where
  | null
  | bool (b : Bool)
  | num (n : Int)
  | str (s : String)
deriving DecidableEq, Repr

/-- A Redis value: either a string (serialized JSON) or a set of member
keys (kept as a list in insertion order; SADD never duplicates). -/
inductive RVal where
  | str (v : Jso)
  | set (members : List String)
deriving DecidableEq, Repr

/-- A keyspace entry: value plus optional TTL (none = no expiry). -/
structure REntry where
  val : RVal
  ttl : Option Nat
deriving DecidableEq, Repr

/-- The Redis keyspace: an association list from keys to entries. -/
abbrev RedisState := List (String × REntry)

/-- Lookup of a key in the keyspace (first match). -/
def stGet (st : RedisState) (k : String) : Option REntry :=
  match st with
  | [] => none
  | kv :: rest => if kv.1 = k then some kv.2 else stGet rest k

/-- Remove every binding of a key. -/
def stErase (st : RedisState) (k : String) : RedisState :=
  match st with
  | [] => []
  | kv :: rest => if kv.1 = k then stErase rest k else kv :: stErase rest k

/-- Write a key: any previous binding is removed and the new entry is
appended. -/
def stSet (st : RedisState) (k : String) (e : REntry) : RedisState :=
  stErase st k ++ [(k, e)]

theorem stGet_append (a b : RedisState) (k : String) :
    stGet (a ++ b) k = ((stGet a k).orElse (fun _ => stGet b k)) := by
  induction a with
  | nil => simp [stGet, Option.orElse]
  | cons kv rest ih =>
      show stGet (kv :: (rest ++ b)) k = _
      by_cases h : kv.1 = k <;> simp [stGet, h, ih, Option.orElse]

theorem stGet_stErase (st : RedisState) (k : String) :
    stGet (stErase st k) k = none := by
  induction st with
  | nil => rfl
  | cons kv rest ih =>
      show stGet (if kv.1 = k then stErase rest k else kv :: stErase rest k) k = none
      by_cases h : kv.1 = k
      · simp [h, ih]
      · simp [h, stGet, ih]

theorem stGet_stErase_ne (st : RedisState) (k k2 : String) (h : k2 ≠ k) :
    stGet (stErase st k) k2 = stGet st k2 := by
  induction st with
  | nil => rfl
  | cons kv rest ih =>
      show stGet (if kv.1 = k then stErase rest k else kv :: stErase rest k) k2 =
        stGet (kv :: rest) k2
      by_cases hk : kv.1 = k
      · have hne : kv.1 ≠ k2 := by
          rw [hk]; exact fun hc => h hc.symm
        rw [if_pos hk, ih]
        show stGet rest k2 = if kv.1 = k2 then some kv.2 else stGet rest k2
        rw [if_neg hne]
      · rw [if_neg hk]
        show stGet (kv :: stErase rest k) k2 = _
        by_cases hk2 : kv.1 = k2 <;> simp [stGet, hk2, ih]

theorem stGet_stSet (st : RedisState) (k : String) (e : REntry) :
    stGet (stSet st k e) k = some e := by
  unfold stSet
  rw [stGet_append, stGet_stErase]
  simp [stGet, Option.orElse]

theorem stGet_stSet_ne (st : RedisState) (k k2 : String) (e : REntry)
    (h : k2 ≠ k) : stGet (stSet st k e) k2 = stGet st k2 := by
  unfold stSet
  rw [stGet_append, stGet_stErase_ne st k k2 h]
  cases hv : stGet st k2 with
  | some e2 => simp [Option.orElse]
  | none =>
      simp only [Option.orElse, stGet]
      rw [if_neg (fun hc : k = k2 => h hc.symm)]

/-- Python single-character split on a character list: every occurrence of
the separator cuts, empty pieces are kept, the empty string splits to one
empty piece.  This is the semantics of str.split with one separator. -/
def pySplit (sep : Char) : List Char → List (List Char)
  | [] => [[]]
  | c :: rest =>
      match pySplit sep rest with
      | [] => []
      | w :: ws => if c = sep then [] :: w :: ws else (c :: w) :: ws

theorem pySplit_ne_nil (sep : Char) (l : List Char) : pySplit sep l ≠ [] := by
  induction l with
  | nil => simp [pySplit]
  | cons c rest ih =>
      show (match pySplit sep rest with
            | [] => []
            | w :: ws => if c = sep then [] :: w :: ws else (c :: w) :: ws) ≠ []
      cases h : pySplit sep rest with
      | nil => exact absurd h ih
      | cons w ws => by_cases hc : c = sep <;> simp [hc]

theorem pySplit_no_sep (sep : Char) (l : List Char) (h : sep ∉ l) :
    pySplit sep l = [l] := by
  induction l with
  | nil => rfl
  | cons c rest ih =>
      have hc : c ≠ sep := fun hc => h (hc ▸ List.mem_cons_self c rest)
      have hrest : sep ∉ rest := fun hm => h (List.mem_cons_of_mem c hm)
      show (match pySplit sep rest with
            | [] => []
            | w :: ws => if c = sep then [] :: w :: ws else (c :: w) :: ws) = [c :: rest]
      rw [ih hrest]
      simp [hc]

theorem pySplit_append (sep : Char) (a rest : List Char) (ha : sep ∉ a) :
    pySplit sep (a ++ sep :: rest) = a :: pySplit sep rest := by
  induction a with
  | nil =>
      rw [List.nil_append]
      show (match pySplit sep rest with
            | [] => []
            | w :: ws => if sep = sep then [] :: w :: ws else (sep :: w) :: ws) =
        [] :: pySplit sep rest
      cases h : pySplit sep rest with
      | nil => exact absurd h (pySplit_ne_nil sep rest)
      | cons w ws => simp
  | cons c cs ih =>
      have hc : c ≠ sep := fun hch => ha (hch ▸ List.mem_cons_self c cs)
      have hcs : sep ∉ cs := fun hm => ha (List.mem_cons_of_mem c hm)
      show (match pySplit sep (cs ++ sep :: rest) with
            | [] => []
            | w :: ws => if c = sep then [] :: w :: ws else (c :: w) :: ws) =
        (c :: cs) :: pySplit sep rest
      rw [ih hcs]
      simp [hc]

/-- The split of a Python string on a one-character separator. -/
def pyStrSplit (s : String) (sep : Char) : List String :=
  (pySplit sep s.data).map String.mk

/-! ## Python dicts -/

/-- Lookup in a Python dict (association list, first match). -/
def pdGet {α : Type} (d : List (String × α)) (k : String) : Option α :=
  match d with
  | [] => none
  | kv :: rest => if kv.1 = k then some kv.2 else pdGet rest k

/-- Assignment `d[k] = v` on a Python dict: updates an existing key in
place (keeping its position), otherwise appends. -/
def pdSet {α : Type} (d : List (String × α)) (k : String) (v : α) :
    List (String × α) :=
  match d with
  | [] => [(k, v)]
  | kv :: rest => if kv.1 = k then (k, v) :: rest else kv :: pdSet rest k v

/-! ## Raw Redis commands

Each command maps a keyspace to a result and a new keyspace, or to an
error when Redis itself would raise (wrong-type accesses). -/

/-- True when the key currently holds a Redis set. -/
def isSetKey (st : RedisState) (k : String) : Bool :=
  match stGet st k with
  | some e => match e.val with | RVal.set _ => true | _ => false
  | none => false

/-- True when the key currently holds a string value. -/
def isStrKey (st : RedisState) (k : String) : Bool :=
  match stGet st k with
  | some e => match e.val with | RVal.str _ => true | _ => false
  | none => false

/-- The stored string value of a key (none when absent). Only meaningful on
keys known not to hold sets. -/
def stGetStrVal (st : RedisState) (k : String) : Option Jso :=
  match stGet st k with
  | some e => match e.val with | RVal.str v => some v | _ => none
  | none => none

/-- The member list of a set key (empty when absent or not a set). -/
def membersOf (st : RedisState) (k : String) : List String :=
  match stGet st k with
  | some e => match e.val with | RVal.set ms => ms | _ => []
  | none => []

/-- The TTL currently attached to a key. -/
def keyTtl (st : RedisState) (k : String) : Option Nat :=
  match stGet st k with
  | some e => e.ttl
  | none => none

/-- GET: returns the string value; raises on a set key. -/
def rawGet (k : String) (st : RedisState) :
    Except Unit (Option Jso × RedisState) :=
  match stGet st k with
  | none => Except.ok (none, st)
  | some e =>
      match e.val with
      | RVal.str v => Except.ok (some v, st)
      | RVal.set _ => Except.error ()

/-- SETEX: stores a string value with a TTL, overwriting any previous
entry of any type. -/
def rawSetex (k : String) (ttl : Nat) (v : Jso) (st : RedisState) :
    Except Unit (Bool × RedisState) :=
  Except.ok (true, stSet st k ⟨RVal.str v, some ttl⟩)

/-- DEL: removes the key of any type, returning the number removed. -/
def rawDelete (k : String) (st : RedisState) :
    Except Unit (Nat × RedisState) :=
  Except.ok (if (stGet st k).isSome then 1 else 0, stErase st k)

/-- EXISTS (as a boolean). -/
def rawExists (k : String) (st : RedisState) :
    Except Unit (Bool × RedisState) :=
  Except.ok ((stGet st k).isSome, st)

/-- EXPIRE: resets the TTL of an existing key of any type. -/
def rawExpire (k : String) (ttl : Nat) (st : RedisState) :
    Except Unit (Bool × RedisState) :=
  match stGet st k with
  | none => Except.ok (false, st)
  | some e => Except.ok (true, stSet st k ⟨e.val, some ttl⟩)

/-- SADD of one member: creates the set when absent (no TTL), is a no-op
on an already present member, raises on a string key. -/
def rawSadd (k m : String) (st : RedisState) :
    Except Unit (Nat × RedisState) :=
  match stGet st k with
  | none => Except.ok (1, stSet st k ⟨RVal.set [m], none⟩)
  | some e =>
      match e.val with
      | RVal.str _ => Except.error ()
      | RVal.set ms =>
          if m ∈ ms then Except.ok (0, st)
          else Except.ok (1, stSet st k ⟨RVal.set (ms ++ [m]), e.ttl⟩)

/-- SMEMBERS: the member list; empty for an absent key; raises on a
string key. -/
def rawSmembers (k : String) (st : RedisState) :
    Except Unit (List String × RedisState) :=
  match stGet st k with
  | none => Except.ok ([], st)
  | some e =>
      match e.val with
      | RVal.str _ => Except.error ()
      | RVal.set ms => Except.ok (ms, st)

/-- Redis glob matching with the two wildcards the code relies on. -/
def globMatch (p s : List Char) : Bool :=
  match p, s with
  | [], [] => true
  | [], _ :: _ => false
  | '*' :: ps, s =>
      globMatch ps s ||
        (match s with
         | [] => false
         | _ :: s2 => globMatch ('*' :: ps) s2)
  | _ :: _, [] => false
  | c :: ps, c2 :: s2 => (c == '?' || c == c2) && globMatch ps s2
termination_by p.length + s.length

/-- KEYS: every key of the keyspace matching the pattern, in keyspace
order. -/
def rawKeys (pattern : String) (st : RedisState) :
    Except Unit (List String × RedisState) :=
  Except.ok ((st.map (fun kv => kv.1)).filter
    (fun k => globMatch pattern.data k.data), st)

/-- A pipeline of GETs executed in one round trip: raises when any queried
key holds a set, otherwise returns the stored values positionally. -/
def rawPipeGet (keys : List String) (st : RedisState) :
    Except Unit (List (Option Jso) × RedisState) :=
  if keys.any (fun k => isSetKey st k) then Except.error ()
  else Except.ok (keys.map (fun k => stGetStrVal st k), st)

/-- A pipeline of SETEX commands executed in one round trip. -/
def rawPipeSetex (items : List (String × Jso)) (ttl : Nat) (st : RedisState) :
    Except Unit (Unit × RedisState) :=
  Except.ok ((), items.foldl (fun s kv => stSet s kv.1 ⟨RVal.str kv.2, some ttl⟩) st)

/-- A pipeline of DELs executed sequentially in one round trip, returning
the per-command removal counts. -/
def pipeDeleteGo (keys : List String) (st : RedisState) :
    List Nat × RedisState :=
  match keys with
  | [] => ([], st)
  | k :: ks =>
      let n := if (stGet st k).isSome then 1 else 0
      let r := pipeDeleteGo ks (stErase st k)
      (n :: r.1, r.2)

def rawPipeDelete (keys : List String) (st : RedisState) :
    Except Unit (List Nat × RedisState) :=
  Except.ok (pipeDeleteGo keys st)

/-! ## The fault-schedule execution monad -/

/-- Result of running a cache computation: a value (or an uncaught Python
exception) together with the remaining fault schedule and keyspace. -/
inductive RedisResult (α : Type) where
  | ok (a : α) (fs : List Bool) (st : RedisState)
  | err (fs : List Bool) (st : RedisState)
deriving Repr, DecidableEq

/-- A computation over the keyspace driven by a fault schedule. -/
def RedisM (α : Type) : Type :=
  List Bool → RedisState → RedisResult α

instance : Monad RedisM where
  pure a := fun fs st => RedisResult.ok a fs st
  bind m f := fun fs st =>
    match m fs st with
    | RedisResult.ok a fs2 st2 => f a fs2 st2
    | RedisResult.err fs2 st2 => RedisResult.err fs2 st2

/-- One primitive Redis command: consumes one entry of the fault schedule
when the schedule is non-empty (a true entry means the backend call
raises before touching the keyspace); a wrong-type error of the command
itself also raises. -/
def prim {α : Type} (f : RedisState → Except Unit (α × RedisState)) :
    RedisM α := fun fs st =>
  match fs with
  | [] =>
      match f st with
      | Except.ok (a, st2) => RedisResult.ok a [] st2
      | Except.error _ => RedisResult.err [] st
  | b :: rest =>
      if b then RedisResult.err rest st
      else
        match f st with
        | Except.ok (a, st2) => RedisResult.ok a rest st2
        | Except.error _ => RedisResult.err rest st

/-- Python try/except returning a default: the body runs, and any raised
exception is swallowed, keeping the keyspace changes made so far. -/
def tryOr {α : Type} (m : RedisM α) (d : α) : RedisM α := fun fs st =>
  match m fs st with
  | RedisResult.ok a fs2 st2 => RedisResult.ok a fs2 st2
  | RedisResult.err fs2 st2 => RedisResult.ok d fs2 st2

def RedisResult.isOk {α : Type} : RedisResult α → Bool
  | RedisResult.ok _ _ _ => true
  | RedisResult.err _ _ => false

/-- The keyspace a run ends in. -/
def RedisResult.state {α : Type} : RedisResult α → RedisState
  | RedisResult.ok _ _ st => st
  | RedisResult.err _ st => st

/-- The fault schedule a run leaves behind. -/
def RedisResult.sched {α : Type} : RedisResult α → List Bool
  | RedisResult.ok _ fs _ => fs
  | RedisResult.err fs _ => fs

/-- The returned value of a run, with a default for the uncaught case. -/
def RedisResult.valD {α : Type} (r : RedisResult α) (d : α) : α :=
  match r with
  | RedisResult.ok a _ _ => a
  | RedisResult.err _ _ => d

/-! ## The RedisTimelineCache strategy configuration -/

/-- The per-instance configuration of RedisTimelineCache: its entity type
and its default TTL (from CacheConfig). -/
structure Strat where
  entityType : String
  defaultTtl : Nat
deriving DecidableEq, Repr

/-- Deserialization of one raw GET result as the caller observes it:
absent stays None, and the stored text "null" loads to Python None, so a
stored null is indistinguishable from a miss. -/
def decodeVal (r : Option Jso) : Option Jso :=
  match r with
  | none => none
  | some v => if v = Jso.null then none else some v

/-- Sequencing of cache computations (the monadic bind, kept as a plain
definition so proofs unfold it directly). -/
def bindM {α β : Type} (m : RedisM α) (f : α → RedisM β) : RedisM β :=
  fun fs st =>
    match m fs st with
    | RedisResult.ok a fs2 st2 => f a fs2 st2
    | RedisResult.err fs2 st2 => RedisResult.err fs2 st2

def pureM {α : Type} (a : α) : RedisM α := fun fs st => RedisResult.ok a fs st

/-! ## CacheStore operations (RedisTimelineCache)

Each operation is the literal translation of the corresponding method:
a try-block around the Redis commands it issues, with the documented
miss/false/empty default returned from the except-handler. -/

/-- The try-block of RedisTimelineCache.get. -/
def getBody (k : String) : RedisM (Option Jso) :=
  bindM (prim (rawGet k)) (fun r => pureM (decodeVal r))

/-- RedisTimelineCache.get. -/
def getM (k : String) : RedisM (Option Jso) :=
  tryOr (getBody k) none

/-- The try-block of RedisTimelineCache.set. -/
def setBody (k : String) (ttl : Nat) (v : Jso) : RedisM Bool :=
  bindM (prim (rawSetex k ttl v)) (fun r => pureM r)

/-- RedisTimelineCache.set (the TTL defaulting happens before the try). -/
def setM (S : Strat) (k : String) (v : Jso) (ttlSeconds : Option Nat) :
    RedisM Bool :=
  let ttl := ttlSeconds.getD S.defaultTtl
  tryOr (setBody k ttl v) false

/-- The try-block of RedisTimelineCache.extend_ttl. -/
def extendTtlBody (k : String) (ttl : Nat) : RedisM Bool :=
  bindM (prim (rawExists k)) (fun ex =>
    if ex then bindM (prim (rawExpire k ttl)) (fun r => pureM r)
    else pureM false)

/-- RedisTimelineCache.extend_ttl. -/
def extendTtlM (S : Strat) (k : String) (ttlSeconds : Option Nat) :
    RedisM Bool :=
  let ttl := ttlSeconds.getD S.defaultTtl
  tryOr (extendTtlBody k ttl) false

/-- The try-block of RedisTimelineCache.delete. -/
def deleteBody (k : String) : RedisM Bool :=
  bindM (prim (rawDelete k)) (fun n => pureM (decide (0 < n)))

/-- RedisTimelineCache.delete. -/
def deleteM (k : String) : RedisM Bool :=
  tryOr (deleteBody k) false

/-- The try-block of RedisTimelineCache.exists. -/
def existsBody (k : String) : RedisM Bool :=
  bindM (prim (rawExists k)) (fun b => pureM b)

/-- RedisTimelineCache.exists. -/
def existsM (k : String) : RedisM Bool :=
  tryOr (existsBody k) false

/-- The dict comprehension over zip(keys, results) used by get_many and
get_by_pattern. -/
def pdOfZip (keys : List String) (results : List (Option Jso)) :
    List (String × Option Jso) :=
  (keys.zip results).foldl (fun d kr => pdSet d kr.1 (decodeVal kr.2)) []

/-- The all-None dict built by the except-handler of get_many. -/
def pdAllNone (keys : List String) : List (String × Option Jso) :=
  keys.foldl (fun d k => pdSet d k none) []

/-- The try-block of RedisTimelineCache.get_many. -/
def getManyBody (keys : List String) : RedisM (List (String × Option Jso)) :=
  bindM (prim (rawPipeGet keys)) (fun rs => pureM (pdOfZip keys rs))

/-- RedisTimelineCache.get_many. -/
def getManyM (keys : List String) : RedisM (List (String × Option Jso)) :=
  tryOr (getManyBody keys) (pdAllNone keys)

/-- The try-block of RedisTimelineCache.set_many. -/
def setManyBody (items : List (String × Jso)) (ttl : Nat) : RedisM Bool :=
  bindM (prim (rawPipeSetex items ttl)) (fun _ => pureM true)

/-- RedisTimelineCache.set_many. -/
def setManyM (S : Strat) (items : List (String × Jso))
    (ttlSeconds : Option Nat) : RedisM Bool :=
  let ttl := ttlSeconds.getD S.defaultTtl
  tryOr (setManyBody items ttl) false

/-- The try-block of RedisTimelineCache.delete_many. -/
def deleteManyBody (keys : List String) : RedisM Nat :=
  bindM (prim (rawPipeDelete keys)) (fun rs =>
    pureM ((rs.filter (fun n => decide (0 < n))).length))

/-- RedisTimelineCache.delete_many (sum of the boolean results). -/
def deleteManyM (keys : List String) : RedisM Nat :=
  tryOr (deleteManyBody keys) 0

/-- The try-block of RedisTimelineCache.get_by_pattern. -/
def getByPatternBody (pattern : String) : RedisM (List (String × Option Jso)) :=
  bindM (prim (rawKeys pattern)) (fun ks =>
    if ks = [] then pureM []
    else bindM (prim (rawPipeGet ks)) (fun rs => pureM (pdOfZip ks rs)))

/-- RedisTimelineCache.get_by_pattern. -/
def getByPatternM (pattern : String) : RedisM (List (String × Option Jso)) :=
  tryOr (getByPatternBody pattern) []

/-- The try-block of RedisTimelineCache.delete_by_pattern (it delegates
to delete_many, which catches its own failures). -/
def deleteByPatternBody (pattern : String) : RedisM Nat :=
  bindM (prim (rawKeys pattern)) (fun ks =>
    if ks = [] then pureM 0 else deleteManyM ks)

/-- RedisTimelineCache.delete_by_pattern. -/
def deleteByPatternM (pattern : String) : RedisM Nat :=
  tryOr (deleteByPatternBody pattern) 0

/-! ## Fault-free (pure) counterparts used by the repository layer

Under the empty fault schedule every operation above runs its happy path,
with wrong-type accesses still caught by the try-blocks.  These pure
functions are that semantics; bridge lemmas connect them to the monadic
operations at the empty schedule. -/

/-- Fault-free RedisTimelineCache.get. -/
def cGet (st : RedisState) (k : String) : Option Jso :=
  match rawGet k st with
  | Except.ok (r, _) => decodeVal r
  | Except.error _ => none

/-- The keyspace after a fault-free RedisTimelineCache.set. -/
def cSetState (st : RedisState) (k : String) (v : Jso) (ttl : Nat) :
    RedisState :=
  stSet st k ⟨RVal.str v, some ttl⟩

/-- Fault-free RedisTimelineCache.delete. -/
def cDelete (st : RedisState) (k : String) : Bool × RedisState :=
  ((stGet st k).isSome, stErase st k)

/-- Fault-free RedisTimelineCache.get_many. -/
def cGetMany (st : RedisState) (keys : List String) :
    List (String × Option Jso) :=
  match rawPipeGet keys st with
  | Except.error _ => pdAllNone keys
  | Except.ok (rs, _) => pdOfZip keys rs

theorem getM_nofault (k : String) (st : RedisState) :
    getM k [] st = RedisResult.ok (cGet st k) [] st := by
  cases hg : stGet st k with
  | none => simp [getM, getBody, cGet, tryOr, bindM, prim, pureM, rawGet, hg]
  | some e =>
      cases hv : e.val with
      | str v => simp [getM, getBody, cGet, tryOr, bindM, prim, pureM, rawGet, hg, hv]
      | set ms => simp [getM, getBody, cGet, tryOr, bindM, prim, pureM, rawGet, hg, hv]

theorem setM_nofault (S : Strat) (k : String) (v : Jso)
    (ttlSeconds : Option Nat) (st : RedisState) :
    setM S k v ttlSeconds [] st =
      RedisResult.ok true [] (cSetState st k v (ttlSeconds.getD S.defaultTtl)) := by
  unfold setM setBody cSetState tryOr bindM prim pureM rawSetex
  rfl

theorem deleteM_nofault (k : String) (st : RedisState) :
    deleteM k [] st =
      RedisResult.ok ((stGet st k).isSome) [] (stErase st k) := by
  unfold deleteM deleteBody tryOr bindM prim pureM rawDelete
  cases h : (stGet st k) <;> simp [h]

theorem getManyM_nofault (keys : List String) (st : RedisState) :
    getManyM keys [] st = RedisResult.ok (cGetMany st keys) [] st := by
  unfold getManyM getManyBody cGetMany tryOr bindM prim pureM rawPipeGet
  by_cases ha : keys.any (fun k => isSetKey st k) <;> simp [ha]

/-! ## get_values_by_set (timeline resolution)

The fault-free semantics of RedisTimelineCache.get_values_by_set.  The
fallback loader is caller-supplied code: it returns a value or raises
(both caught per member by the inner try). -/

/-- One fallback loader call per missing member (the for-loop body with
its per-member try/except): the returned value is recorded in the map
even when it is None, and on a recovered value with readd_on_success the
reference is re-added to the set via SADD. -/
def resolveLoop (setKey : String) (loader : String → Except Unit (Option Jso))
    (readd : Bool) (missing : List String)
    (acc : List (String × Option Jso) × RedisState) :
    List (String × Option Jso) × RedisState :=
  match missing with
  | [] => acc
  | refKey :: rest =>
      match loader refKey with
      | Except.error _ => resolveLoop setKey loader readd rest acc
      | Except.ok recovered =>
          let d := pdSet acc.1 refKey recovered
          if readd && recovered.isSome then
            match rawSadd setKey refKey acc.2 with
            | Except.ok (_, st2) => resolveLoop setKey loader readd rest (d, st2)
            | Except.error _ => resolveLoop setKey loader readd rest (d, acc.2)
          else resolveLoop setKey loader readd rest (d, acc.2)

/-- RedisTimelineCache.get_values_by_set, fault-free: SMEMBERS, batch
get_many, then the fallback loop; the outer try turns a wrong-type
SMEMBERS into the empty map. -/
def getValuesBySet (st : RedisState) (setKey : String)
    (fallbackLoader : Option (String → Except Unit (Option Jso)))
    (readd : Bool) : List (String × Option Jso) × RedisState :=
  match rawSmembers setKey st with
  | Except.error _ => ([], st)
  | Except.ok (memberKeys, _) =>
      if memberKeys = [] then ([], st)
      else
        let valuesMap := cGetMany st memberKeys
        match fallbackLoader with
        | none => (valuesMap, st)
        | some loader =>
            let missing := (valuesMap.filter (fun kv => kv.2.isNone)).map
              (fun kv => kv.1)
            resolveLoop setKey loader readd missing (valuesMap, st)

/-! ## Key formatting and parsing (KeyFormatter) -/

/-- Python truthiness of an optional string: None and the empty string are
falsy. -/
def truthy (o : Option String) : Bool :=
  match o with
  | none => false
  | some s => s != ""

/-- The Python idiom `a if a else b` (also written `a or b`) on an
optional string. -/
def pyOrOpt (o : Option String) (d : String) : String :=
  match o with
  | some s => if s = "" then d else s
  | none => d

/-- RedisTimelineCache._format_key, with the entity_type of the instance
as first argument. -/
def formatKey (entityType pin : String) (entityId : Option String)
    (masterPin marketplaceType marketplaceShopId : Option String) : String :=
  let effectivePin := pyOrOpt masterPin pin
  if entityType = "accounts" then
    if truthy marketplaceType && truthy entityId then
      "account:" ++ marketplaceType.getD "" ++ ":" ++ entityId.getD ""
    else if truthy entityId then
      "account:" ++ entityId.getD ""
    else if truthy marketplaceType && truthy marketplaceShopId then
      "user:" ++ effectivePin ++ ":account:" ++ marketplaceType.getD "" ++ ":" ++
        marketplaceShopId.getD ""
    else
      "user:" ++ effectivePin ++ ":accounts"
  else
    if truthy marketplaceType && truthy marketplaceShopId && truthy entityId then
      entityType ++ ":" ++ marketplaceType.getD "" ++ ":" ++
        marketplaceShopId.getD "" ++ ":" ++ entityId.getD ""
    else if truthy marketplaceType && truthy marketplaceShopId then
      entityType ++ ":" ++ marketplaceType.getD "" ++ ":" ++ marketplaceShopId.getD ""
    else if truthy entityId then
      "user:" ++ effectivePin ++ ":" ++ entityType ++ ":" ++ entityId.getD ""
    else
      "user:" ++ effectivePin ++ ":" ++ entityType

/-- RedisTimelineCache._format_user_timeline_key with the default
user_timeline key pattern of the constructor. -/
def formatUserTimelineKey (entityType pin : String) : String :=
  "user:" ++ pin ++ ":" ++ entityType ++ ":timeline"

/-- The dictionary returned by RedisTimelineCache._parse_key. -/
structure ParsedKey where
  pin : Option String
  entityType : String
  marketplaceType : Option String
  marketplaceShopId : Option String
  entityId : Option String
deriving DecidableEq, Repr

/-- RedisTimelineCache._parse_key.  Guarded accesses (`parts[i] if
len(parts) > i else None`) become `List.get?`; unguarded accesses that
would raise IndexError in Python become Option-binds, so `none` marks the
raising runs. -/
def parseKey (key : String) : Option ParsedKey :=
  let parts := pyStrSplit key ':'
  let p0 := parts.getD 0 ""
  if p0 = "user" then
    if 4 ≤ parts.length ∧ parts.getD 2 "" = "account" then
      some { pin := some (parts.getD 1 ""), entityType := "accounts",
             marketplaceType := parts.get? 3,
             marketplaceShopId := parts.get? 4,
             entityId := parts.get? 4 }
    else
      match parts.get? 1, parts.get? 2 with
      | some pinPart, some etPart =>
          some { pin := some pinPart, entityType := etPart,
                 marketplaceType := none, marketplaceShopId := none,
                 entityId := parts.get? 3 }
      | _, _ => none
  else if p0 = "account" then
    if 3 ≤ parts.length then
      match parts.get? 1, parts.get? 2 with
      | some mtPart, some msidPart =>
          some { pin := none, entityType := "accounts",
                 marketplaceType := some mtPart,
                 marketplaceShopId := some msidPart,
                 entityId := some msidPart }
      | _, _ => none
    else
      match parts.get? 1 with
      | some msidPart =>
          some { pin := none, entityType := "accounts",
                 marketplaceType := none,
                 marketplaceShopId := some msidPart,
                 entityId := some msidPart }
      | none => none
  else
    if 4 ≤ parts.length then
      match parts.get? 1, parts.get? 2, parts.get? 3 with
      | some mtPart, some msidPart, some eidPart =>
          some { pin := none, entityType := p0,
                 marketplaceType := some mtPart,
                 marketplaceShopId := some msidPart,
                 entityId := some eidPart }
      | _, _, _ => none
    else if parts.length = 3 then
      match parts.get? 1, parts.get? 2 with
      | some mtPart, some msidPart =>
          some { pin := none, entityType := p0,
                 marketplaceType := some mtPart,
                 marketplaceShopId := some msidPart,
                 entityId := none }
      | _, _ => none
    else
      some { pin := none, entityType := p0,
             marketplaceType := parts.get? 1,
             marketplaceShopId := parts.get? 2,
             entityId := parts.get? 3 }

/-! ## set_user_entity -/

/-- RedisTimelineCache.set_user_entity: writes the value under the
external key via set (which catches its own failures), then inside its
own try adds the reference to the user timeline and resets the timeline
TTL to twice the entry TTL; the returned boolean is only the value-write
outcome. -/
def setUserEntityM (S : Strat) (pin : String) (entityId : Option String)
    (v : Jso) (masterPin marketplaceType marketplaceShopId : Option String)
    (ttlSeconds : Option Nat) : RedisM Bool :=
  let key := formatKey S.entityType pin entityId masterPin marketplaceType
    marketplaceShopId
  bindM (setM S key v ttlSeconds) (fun stored =>
    let effectivePin := pyOrOpt masterPin pin
    let timelineKey := formatUserTimelineKey S.entityType effectivePin
    bindM
      (tryOr
        (bindM (prim (rawSadd timelineKey key)) (fun _ =>
          let ttl := ttlSeconds.getD S.defaultTtl
          bindM (prim (rawExpire timelineKey (ttl * 2))) (fun _ => pureM ())))
        ())
      (fun _ => pureM stored))

/-! ## The Repository base class -/

/-- Observable calls into the source-of-record made by a repository
operation, in order. -/
inductive Event where
  | dbGet (id : String)
  | dbSave (e : Jso)
deriving DecidableEq, Repr

/-- A concrete Repository instance: the cache strategy configuration and
the caller-supplied hooks (get_from_database, save_to_database,
parse_id_from_key, the optional response schema, and the
after_save_update_cache hook, which may touch the keyspace and whose
boolean reports whether it raised). -/
structure Repo where
  S : Strat
  db : String → Option Jso
  dbSave : Jso → Jso
  parseId : String → Option String
  schema : Option (Jso → Jso)
  hook : String → Jso → RedisState → RedisState × Bool

/-- Repository.get: cache hit returns at once; on a miss the lookup id is
`parse_id_from_key(key) or key`, the source is consulted once, and a found
entity is cached under the queried key. -/
def repoGet (R : Repo) (st : RedisState) (id : String) :
    Option Jso × RedisState × List Event :=
  match cGet st id with
  | some v => (some v, st, [])
  | none =>
      let lookupId := pyOrOpt (R.parseId id) id
      match R.db lookupId with
      | some entity =>
          (some entity, cSetState st id entity R.S.defaultTtl,
           [Event.dbGet lookupId])
      | none => (none, st, [Event.dbGet lookupId])

/-- The body of the hydration loop of Repository.get_many for one
snapshot item. -/
def hydrateStep (R : Repo)
    (acc : List (String × Option Jso) × RedisState × List Event)
    (kv : String × Option Jso) :
    List (String × Option Jso) × RedisState × List Event :=
  match kv.2 with
  | some _ => acc
  | none =>
      let lookupId := pyOrOpt (R.parseId kv.1) kv.1
      match R.db lookupId with
      | none => (pdSet acc.1 kv.1 none, acc.2.1, acc.2.2 ++ [Event.dbGet lookupId])
      | some entity =>
          (pdSet acc.1 kv.1 (some entity),
           cSetState acc.2.1 kv.1 entity R.S.defaultTtl,
           acc.2.2 ++ [Event.dbGet lookupId])

/-- Repository.get_many: one batch cache fetch, then each key whose batch
value is None is hydrated individually over a snapshot of the dict items,
writing recovered entities back under the queried key. -/
def repoGetMany (R : Repo) (st : RedisState) (keys : List String) :
    List (String × Option Jso) × RedisState × List Event :=
  if keys = [] then ([], st, [])
  else
    let values := cGetMany st keys
    values.foldl (hydrateStep R) (values, st, [])

/-- Repository.apply_schema on a single value. -/
def applySchema (R : Repo) (x : Jso) : Jso :=
  match R.schema with
  | some f => f x
  | none => x

/-- Repository.save: save_to_database first, then the (optionally
serialized) saved entity is cached under the id, then the
after_save_update_cache hook runs with every exception swallowed. -/
def repoSave (R : Repo) (st : RedisState) (id : String) (entity : Jso) :
    Jso × RedisState × List Event :=
  let saved := R.dbSave entity
  match R.schema with
  | some f =>
      let serialized := f saved
      let st1 := cSetState st id serialized R.S.defaultTtl
      let st2 := (R.hook id serialized st1).1
      (serialized, st2, [Event.dbSave entity])
  | none =>
      let st1 := cSetState st id saved R.S.defaultTtl
      let st2 := (R.hook id saved st1).1
      (saved, st2, [Event.dbSave entity])

/-- Repository.invalidate = cache.delete (fault-free path). -/
def repoInvalidate (st : RedisState) (id : String) : Bool × RedisState :=
  cDelete st id

/-- The for-loop of Repository.add_reference_to_sets with its surrounding
try: the first raising command aborts the loop and the count gathered so
far is returned. -/
def addRefLoop (valueKey : String) (expireTtl : Nat) (setKeys : List String)
    (updated : Nat) (st : RedisState) : Nat × RedisState :=
  match setKeys with
  | [] => (updated, st)
  | sk :: rest =>
      match rawSadd sk valueKey st with
      | Except.error _ => (updated, st)
      | Except.ok (_, st1) =>
          match rawExpire sk expireTtl st1 with
          | Except.ok (_, st2) => addRefLoop valueKey expireTtl rest (updated + 1) st2
          | Except.error _ => (updated, st1)

/-- Repository.add_reference_to_sets, fault-free: SADD plus EXPIRE on
every target set, with TTL defaulting to twice the strategy default. -/
def repoAddReferenceToSets (S : Strat) (valueKey : String)
    (setKeys : List String) (ttlSeconds : Option Nat) (st : RedisState) :
    Nat × RedisState :=
  let expireTtl := ttlSeconds.getD (S.defaultTtl * 2)
  addRefLoop valueKey expireTtl setKeys 0 st

/-- Repository.get_values_by_set delegates to the strategy resolver
(RedisTimelineCache.get_values_by_set), which every strategy in the
repository provides. -/
def repoGetValuesBySet (st : RedisState) (setKey : String)
    (fallbackLoader : Option (String → Except Unit (Option Jso)))
    (readd : Bool) : List (String × Option Jso) × RedisState :=
  getValuesBySet st setKey fallbackLoader readd

/-! ## Dictionary lemmas -/

theorem pdGet_pdSet {α : Type} (d : List (String × α)) (k k2 : String)
    (v : α) : pdGet (pdSet d k v) k2 = if k = k2 then some v else pdGet d k2 := by
  induction d with
  | nil => simp [pdSet, pdGet]
  | cons kv rest ih =>
      unfold pdSet
      by_cases hk : kv.1 = k
      · rw [if_pos hk]
        by_cases hk2 : k = k2
        · simp [pdGet, hk2]
        · have : kv.1 ≠ k2 := by rw [hk]; exact hk2
          simp [pdGet, hk2, this]
      · rw [if_neg hk]
        by_cases hk2 : kv.1 = k2
        · have : k ≠ k2 := by rw [← hk2]; exact fun hc => hk hc.symm
          simp [pdGet, hk2, this]
        · simp [pdGet, hk2, ih]

theorem pdGet_eq_none_of_not_mem {α : Type} (d : List (String × α))
    (k : String) (h : k ∉ d.map Prod.fst) : pdGet d k = none := by
  induction d with
  | nil => rfl
  | cons kv rest ih =>
      have h1 : kv.1 ≠ k := fun hc => h (by simp [hc])
      have h2 : k ∉ rest.map Prod.fst := fun hc => h (by simp [hc])
      simp [pdGet, h1, ih h2]

theorem mem_of_pdGet {α : Type} (d : List (String × α)) (k : String) (v : α)
    (h : pdGet d k = some v) : (k, v) ∈ d := by
  induction d with
  | nil => simp [pdGet] at h
  | cons kv rest ih =>
      unfold pdGet at h
      by_cases hk : kv.1 = k
      · rw [if_pos hk] at h
        have : kv = (k, v) := by
          cases kv
          simp at hk h
          simp [hk, h]
        simp [this]
      · rw [if_neg hk] at h
        exact List.mem_cons_of_mem kv (ih h)

theorem mem_map_fst_of_pdGet {α : Type} (d : List (String × α)) (k : String)
    (v : α) (h : pdGet d k = some v) : k ∈ d.map Prod.fst := by
  have := mem_of_pdGet d k v h
  exact List.mem_map_of_mem Prod.fst this

theorem pdGet_of_mem_nodup {α : Type} (d : List (String × α)) (k : String)
    (v : α) (hnd : (d.map Prod.fst).Nodup) (hm : (k, v) ∈ d) :
    pdGet d k = some v := by
  induction d with
  | nil => simp at hm
  | cons kv rest ih =>
      rcases List.mem_cons.mp hm with heq | hmem
      · subst heq
        simp [pdGet]
      · have hk : kv.1 ≠ k := by
          intro hc
          have : k ∈ rest.map Prod.fst := List.mem_map_of_mem Prod.fst hmem
          rw [List.map_cons, List.nodup_cons, hc] at hnd
          exact hnd.1 this
        have hnd2 : (rest.map Prod.fst).Nodup := by
          rw [List.map_cons, List.nodup_cons] at hnd
          exact hnd.2
        simp [pdGet, hk, ih hnd2 hmem]

theorem pdKeys_pdSet {α : Type} (d : List (String × α)) (k : String) (v : α) :
    (pdSet d k v).map Prod.fst =
      if k ∈ d.map Prod.fst then d.map Prod.fst else d.map Prod.fst ++ [k] := by
  induction d with
  | nil => simp [pdSet]
  | cons kv rest ih =>
      unfold pdSet
      by_cases hk : kv.1 = k
      · simp [hk]
      · have hmem : (k ∈ (kv :: rest).map Prod.fst) ↔ k ∈ rest.map Prod.fst := by
          simp only [List.map_cons, List.mem_cons]
          constructor
          · rintro (hc | hc)
            · exact absurd hc.symm hk
            · exact hc
          · exact fun hc => Or.inr hc
        by_cases hm : k ∈ rest.map Prod.fst
        · rw [if_neg hk, if_pos (hmem.mpr hm)]
          simp [List.map_cons, ih, hm]
        · rw [if_neg hk, if_neg (fun hc => hm (hmem.mp hc))]
          simp [List.map_cons, ih, hm]

theorem pdKeys_pdSet_nodup {α : Type} (d : List (String × α)) (k : String)
    (v : α) (h : (d.map Prod.fst).Nodup) :
    ((pdSet d k v).map Prod.fst).Nodup := by
  rw [pdKeys_pdSet]
  by_cases hm : k ∈ d.map Prod.fst
  · simpa [hm]
  · simp only [hm, if_false]
    simp [List.nodup_append, h, hm]

theorem pdGet_foldSet {α : Type} (l : List String) (g : String → α)
    (d0 : List (String × α)) (k : String) :
    pdGet (l.foldl (fun d k2 => pdSet d k2 (g k2)) d0) k =
      if k ∈ l then some (g k) else pdGet d0 k := by
  induction l generalizing d0 with
  | nil => simp
  | cons a l ih =>
      rw [List.foldl_cons, ih]
      by_cases hl : k ∈ l
      · simp [hl, List.mem_cons]
      · rw [if_neg hl, pdGet_pdSet]
        by_cases hk : a = k
        · simp [hk, List.mem_cons]
        · have hnm : ¬ k ∈ a :: l := by
            rw [List.mem_cons]
            rintro (hc | hc)
            · exact hk hc.symm
            · exact hl hc
          simp [hk, hnm]

theorem pdKeys_foldSet_nodup {α : Type} (l : List String) (g : String → α)
    (d0 : List (String × α)) (h : (d0.map Prod.fst).Nodup) :
    ((l.foldl (fun d k2 => pdSet d k2 (g k2)) d0).map Prod.fst).Nodup := by
  induction l generalizing d0 with
  | nil => simpa
  | cons a l ih => exact ih (pdSet d0 a (g a)) (pdKeys_pdSet_nodup d0 a (g a) h)

/-! ## cGetMany characterization -/

theorem cGetMany_eq (st : RedisState) (keys : List String) :
    cGetMany st keys =
      if keys.any (fun k2 => isSetKey st k2) then
        keys.foldl (fun d k2 => pdSet d k2 none) []
      else
        keys.foldl (fun d k2 => pdSet d k2 (decodeVal (stGetStrVal st k2))) [] := by
  unfold cGetMany rawPipeGet
  by_cases ha : keys.any (fun k2 => isSetKey st k2)
  · rw [if_pos ha, if_pos ha]
    rfl
  · rw [if_neg ha, if_neg ha]
    have hz : keys.zip (keys.map (fun k2 => stGetStrVal st k2)) =
        keys.map (fun k2 => (k2, stGetStrVal st k2)) := by
      have := List.zip_map' (fun k2 : String => k2)
        (fun k2 => stGetStrVal st k2) keys
      simpa using this
    show pdOfZip keys (keys.map (fun k2 => stGetStrVal st k2)) = _
    unfold pdOfZip
    rw [hz, List.foldl_map]

theorem cGetMany_lookup (st : RedisState) (keys : List String) (k : String) :
    pdGet (cGetMany st keys) k =
      if k ∈ keys then
        some (if keys.any (fun k2 => isSetKey st k2) then none
              else decodeVal (stGetStrVal st k))
      else none := by
  rw [cGetMany_eq]
  by_cases ha : keys.any (fun k2 => isSetKey st k2)
  · rw [if_pos ha]
    rw [pdGet_foldSet keys (fun _ => (none : Option Jso)) [] k]
    by_cases hm : k ∈ keys <;> simp [hm, pdGet, ha]
  · rw [if_neg ha]
    rw [pdGet_foldSet keys (fun k2 => decodeVal (stGetStrVal st k2)) [] k]
    by_cases hm : k ∈ keys <;> simp [hm, pdGet, ha]

theorem cGetMany_keys_nodup (st : RedisState) (keys : List String) :
    ((cGetMany st keys).map Prod.fst).Nodup := by
  rw [cGetMany_eq]
  by_cases ha : keys.any (fun k2 => isSetKey st k2)
  · rw [if_pos ha]
    exact pdKeys_foldSet_nodup keys (fun _ => (none : Option Jso)) [] (by simp)
  · rw [if_neg ha]
    exact pdKeys_foldSet_nodup keys
      (fun k2 => decodeVal (stGetStrVal st k2)) [] (by simp)

theorem cGetMany_mem_keys (st : RedisState) (keys : List String) (k : String)
    (h : k ∈ (cGetMany st keys).map Prod.fst) : k ∈ keys := by
  rcases List.mem_map.mp h with ⟨kv, hkv, hfst⟩
  have hget : pdGet (cGetMany st keys) k = some kv.2 := by
    apply pdGet_of_mem_nodup _ _ _ (cGetMany_keys_nodup st keys)
    rw [← hfst]
    exact hkv
  rw [cGetMany_lookup] at hget
  by_cases hm : k ∈ keys
  · exact hm
  · simp [hm] at hget

/-! ## try/except characterization and sadd/expire observables -/

theorem tryOr_eq {α : Type} (m : RedisM α) (d : α) (fs : List Bool)
    (st : RedisState) :
    tryOr m d fs st =
      RedisResult.ok ((m fs st).valD d) (m fs st).sched (m fs st).state := by
  unfold tryOr RedisResult.valD RedisResult.sched RedisResult.state
  cases m fs st <;> rfl

/-- The keyspace after a successful SADD of one member. -/
def saddState (st : RedisState) (k m : String) : RedisState :=
  match stGet st k with
  | none => stSet st k ⟨RVal.set [m], none⟩
  | some e =>
      match e.val with
      | RVal.set ms =>
          if m ∈ ms then st else stSet st k ⟨RVal.set (ms ++ [m]), e.ttl⟩
      | RVal.str _ => st

/-- The keyspace after an EXPIRE. -/
def expireState (st : RedisState) (k : String) (ttl : Nat) : RedisState :=
  match stGet st k with
  | none => st
  | some e => stSet st k ⟨e.val, some ttl⟩

theorem sadd_nofault (k m : String) (st : RedisState)
    (h : isStrKey st k = false) :
    ∃ n, prim (rawSadd k m) [] st = RedisResult.ok n [] (saddState st k m) := by
  cases hg : stGet st k with
  | none => exact ⟨1, by simp [prim, rawSadd, saddState, hg]⟩
  | some e =>
      cases hv : e.val with
      | str v =>
          exfalso
          simp [isStrKey, hg, hv] at h
      | set ms =>
          by_cases hm : m ∈ ms
          · exact ⟨0, by simp [prim, rawSadd, saddState, hg, hv, hm]⟩
          · exact ⟨1, by simp [prim, rawSadd, saddState, hg, hv, hm]⟩

theorem expire_nofault (k : String) (ttl : Nat) (st : RedisState) :
    ∃ b, prim (rawExpire k ttl) [] st =
      RedisResult.ok b [] (expireState st k ttl) := by
  unfold prim rawExpire expireState
  cases hg : stGet st k with
  | none => exact ⟨false, rfl⟩
  | some e => exact ⟨true, rfl⟩

theorem saddState_stGet_ne (st : RedisState) (k m x : String) (h : x ≠ k) :
    stGet (saddState st k m) x = stGet st x := by
  cases hg : stGet st k with
  | none => simp [saddState, hg, stGet_stSet_ne st k x _ h]
  | some e =>
      cases hv : e.val with
      | str v => simp [saddState, hg, hv]
      | set ms =>
          by_cases hm : m ∈ ms
          · simp [saddState, hg, hv, hm]
          · simp [saddState, hg, hv, hm, stGet_stSet_ne st k x _ h]

theorem expireState_stGet_ne (st : RedisState) (k x : String) (ttl : Nat)
    (h : x ≠ k) : stGet (expireState st k ttl) x = stGet st x := by
  cases hg : stGet st k with
  | none => simp [expireState, hg]
  | some e => simp [expireState, hg, stGet_stSet_ne st k x _ h]

theorem saddState_mem (st : RedisState) (k m : String)
    (h : isStrKey st k = false) : m ∈ membersOf (saddState st k m) k := by
  cases hg : stGet st k with
  | none => simp [saddState, membersOf, hg, stGet_stSet]
  | some e =>
      cases hv : e.val with
      | str v =>
          exfalso
          simp [isStrKey, hg, hv] at h
      | set ms =>
          by_cases hm : m ∈ ms
          · simp [saddState, membersOf, hg, hv, hm]
          · simp [saddState, membersOf, hg, hv, hm, stGet_stSet]

theorem saddState_isSome (st : RedisState) (k m : String) :
    (stGet (saddState st k m) k).isSome = true := by
  cases hg : stGet st k with
  | none => simp [saddState, hg, stGet_stSet]
  | some e =>
      cases hv : e.val with
      | str v => simp [saddState, hg, hv]
      | set ms =>
          by_cases hm : m ∈ ms
          · simp [saddState, hg, hv, hm]
          · simp [saddState, hg, hv, hm, stGet_stSet]

theorem expireState_stGet (st : RedisState) (k : String) (ttl : Nat) :
    stGet (expireState st k ttl) k =
      match stGet st k with
      | none => none
      | some e => some ⟨e.val, some ttl⟩ := by
  cases hg : stGet st k with
  | none => simp [expireState, hg]
  | some e => simp [expireState, hg, stGet_stSet]

/-! ## Claim theorems -/

/-- Claim C4: every CacheStore operation (get, set, delete, exists,
get_many, set_many, delete_many, get_by_pattern, delete_by_pattern,
extend_ttl) never propagates a backend failure: under every fault
schedule and keyspace the run ends in an ok result whose value is the
try-block value, or the documented miss/false/empty default when the
try-block raised, keeping the keyspace changes made so far; in
particular a failure of the first backend command yields exactly the
default with the keyspace untouched. -/
theorem C4_cachestore_fail_open :
    (∀ (k : String) (fs : List Bool) (st : RedisState),
       getM k fs st =
         RedisResult.ok ((getBody k fs st).valD none)
           (getBody k fs st).sched (getBody k fs st).state ∧
       getM k (true :: fs) st = RedisResult.ok none fs st) ∧
    (∀ (S : Strat) (k : String) (v : Jso) (ttlSeconds : Option Nat)
       (fs : List Bool) (st : RedisState),
       setM S k v ttlSeconds fs st =
         RedisResult.ok
           ((setBody k (ttlSeconds.getD S.defaultTtl) v fs st).valD false)
           (setBody k (ttlSeconds.getD S.defaultTtl) v fs st).sched
           (setBody k (ttlSeconds.getD S.defaultTtl) v fs st).state ∧
       setM S k v ttlSeconds (true :: fs) st = RedisResult.ok false fs st) ∧
    (∀ (k : String) (fs : List Bool) (st : RedisState),
       deleteM k fs st =
         RedisResult.ok ((deleteBody k fs st).valD false)
           (deleteBody k fs st).sched (deleteBody k fs st).state ∧
       deleteM k (true :: fs) st = RedisResult.ok false fs st) ∧
    (∀ (k : String) (fs : List Bool) (st : RedisState),
       existsM k fs st =
         RedisResult.ok ((existsBody k fs st).valD false)
           (existsBody k fs st).sched (existsBody k fs st).state ∧
       existsM k (true :: fs) st = RedisResult.ok false fs st) ∧
    (∀ (keys : List String) (fs : List Bool) (st : RedisState),
       getManyM keys fs st =
         RedisResult.ok ((getManyBody keys fs st).valD (pdAllNone keys))
           (getManyBody keys fs st).sched (getManyBody keys fs st).state ∧
       getManyM keys (true :: fs) st =
         RedisResult.ok (pdAllNone keys) fs st) ∧
    (∀ (S : Strat) (items : List (String × Jso)) (ttlSeconds : Option Nat)
       (fs : List Bool) (st : RedisState),
       setManyM S items ttlSeconds fs st =
         RedisResult.ok
           ((setManyBody items (ttlSeconds.getD S.defaultTtl) fs st).valD false)
           (setManyBody items (ttlSeconds.getD S.defaultTtl) fs st).sched
           (setManyBody items (ttlSeconds.getD S.defaultTtl) fs st).state ∧
       setManyM S items ttlSeconds (true :: fs) st =
         RedisResult.ok false fs st) ∧
    (∀ (keys : List String) (fs : List Bool) (st : RedisState),
       deleteManyM keys fs st =
         RedisResult.ok ((deleteManyBody keys fs st).valD 0)
           (deleteManyBody keys fs st).sched (deleteManyBody keys fs st).state ∧
       deleteManyM keys (true :: fs) st = RedisResult.ok 0 fs st) ∧
    (∀ (pattern : String) (fs : List Bool) (st : RedisState),
       getByPatternM pattern fs st =
         RedisResult.ok ((getByPatternBody pattern fs st).valD [])
           (getByPatternBody pattern fs st).sched
           (getByPatternBody pattern fs st).state ∧
       getByPatternM pattern (true :: fs) st = RedisResult.ok [] fs st) ∧
    (∀ (pattern : String) (fs : List Bool) (st : RedisState),
       deleteByPatternM pattern fs st =
         RedisResult.ok ((deleteByPatternBody pattern fs st).valD 0)
           (deleteByPatternBody pattern fs st).sched
           (deleteByPatternBody pattern fs st).state ∧
       deleteByPatternM pattern (true :: fs) st = RedisResult.ok 0 fs st) ∧
    (∀ (S : Strat) (k : String) (ttlSeconds : Option Nat) (fs : List Bool)
       (st : RedisState),
       extendTtlM S k ttlSeconds fs st =
         RedisResult.ok
           ((extendTtlBody k (ttlSeconds.getD S.defaultTtl) fs st).valD false)
           (extendTtlBody k (ttlSeconds.getD S.defaultTtl) fs st).sched
           (extendTtlBody k (ttlSeconds.getD S.defaultTtl) fs st).state ∧
       extendTtlM S k ttlSeconds (true :: fs) st =
         RedisResult.ok false fs st) := by
  refine ⟨?_, ?_, ?_, ?_, ?_, ?_, ?_, ?_, ?_, ?_⟩ <;>
    intros <;> exact ⟨tryOr_eq _ _ _ _, rfl⟩

/-- Claim C7: Repository.invalidate is cache.delete: with the key present
it removes the entry and returns true (the removal count as a boolean),
a second call or a call on an absent key returns false as a no-op, and
delete never lets a backend failure escape to the caller. -/
theorem C7_invalidate_idempotent :
    ∀ (st : RedisState) (id : String),
      repoInvalidate st id = ((stGet st id).isSome, stErase st id) ∧
      (repoInvalidate (stErase st id) id).1 = false ∧
      (∀ (fs : List Bool) (st2 : RedisState), (deleteM id fs st2).isOk = true) ∧
      deleteM id [] st = RedisResult.ok ((stGet st id).isSome) [] (stErase st id) := by
  intro st id
  refine ⟨rfl, ?_, ?_, deleteM_nofault id st⟩
  · show (stGet (stErase st id) id).isSome = false
    rw [stGet_stErase]
    rfl
  · intro fs st2
    show (tryOr (deleteBody id) false fs st2).isOk = true
    rw [tryOr_eq]
    rfl

/-- Claim C9: storing Python None caches the JSON text "null": the write
succeeds and leaves a real entry, yet get returns None exactly as for an
absent key, and Repository.get on that key still performs a source
lookup although the entry is present in the store. -/
theorem C9_cached_null_is_miss :
    ∀ (S : Strat) (st : RedisState) (k : String) (ttlSeconds : Option Nat)
      (R : Repo),
      setM S k Jso.null ttlSeconds [] st =
        RedisResult.ok true []
          (cSetState st k Jso.null (ttlSeconds.getD S.defaultTtl)) ∧
      stGet (cSetState st k Jso.null (ttlSeconds.getD S.defaultTtl)) k =
        some ⟨RVal.str Jso.null, some (ttlSeconds.getD S.defaultTtl)⟩ ∧
      cGet (cSetState st k Jso.null (ttlSeconds.getD S.defaultTtl)) k = none ∧
      cGet (stErase st k) k = none ∧
      (repoGet R (cSetState st k Jso.null (ttlSeconds.getD S.defaultTtl)) k).2.2 =
        [Event.dbGet (pyOrOpt (R.parseId k) k)] := by
  intro S st k ttlSeconds R
  have hset : stGet (cSetState st k Jso.null (ttlSeconds.getD S.defaultTtl)) k =
      some ⟨RVal.str Jso.null, some (ttlSeconds.getD S.defaultTtl)⟩ :=
    stGet_stSet st k _
  have hmiss : cGet (cSetState st k Jso.null (ttlSeconds.getD S.defaultTtl)) k = none := by
    unfold cGet rawGet
    rw [hset]
    rfl
  refine ⟨setM_nofault S k Jso.null ttlSeconds st, hset, hmiss, ?_, ?_⟩
  · unfold cGet rawGet
    rw [stGet_stErase]
    rfl
  · unfold repoGet
    rw [hmiss]
    cases hdb : R.db (pyOrOpt (R.parseId k) k) <;> simp [hdb]

/-- Claim C5: Repository.save saves to the source first, caches the saved
entity (serialized through the response schema when configured) under the
id, then runs the after_save_update_cache hook; whatever the hook does to
the keyspace and whether or not it raises, save returns the (serialized)
saved entity. -/
theorem C5_save_source_first_hook_swallowed :
    ∀ (R : Repo) (st : RedisState) (id : String) (entity : Jso),
      repoSave R st id entity =
        (applySchema R (R.dbSave entity),
         (R.hook id (applySchema R (R.dbSave entity))
            (cSetState st id (applySchema R (R.dbSave entity)) R.S.defaultTtl)).1,
         [Event.dbSave entity]) := by
  intro R st id entity
  unfold repoSave applySchema
  cases R.schema <;> rfl

/-! ## More sadd/expire lemmas -/

theorem rawSadd_ok (k m : String) (st : RedisState)
    (h : isStrKey st k = false) :
    ∃ n, rawSadd k m st = Except.ok (n, saddState st k m) := by
  cases hg : stGet st k with
  | none => exact ⟨1, by simp [rawSadd, saddState, hg]⟩
  | some e =>
      cases hv : e.val with
      | str v => exact absurd h (by simp [isStrKey, hg, hv])
      | set ms =>
          by_cases hm : m ∈ ms
          · exact ⟨0, by simp [rawSadd, saddState, hg, hv, hm]⟩
          · exact ⟨1, by simp [rawSadd, saddState, hg, hv, hm]⟩

theorem rawExpire_ok (k : String) (ttl : Nat) (st : RedisState) :
    ∃ b, rawExpire k ttl st = Except.ok (b, expireState st k ttl) := by
  cases hg : stGet st k with
  | none => exact ⟨false, by simp [rawExpire, expireState, hg]⟩
  | some e => exact ⟨true, by simp [rawExpire, expireState, hg]⟩

theorem rawSadd_mem_noop (k m : String) (st : RedisState)
    (h1 : isSetKey st k = true) (h2 : m ∈ membersOf st k) :
    rawSadd k m st = Except.ok (0, st) := by
  cases hg : stGet st k with
  | none => exact absurd h1 (by simp [isSetKey, hg])
  | some e =>
      cases hv : e.val with
      | str v => exact absurd h1 (by simp [isSetKey, hg, hv])
      | set ms =>
          have hm : m ∈ ms := by
            simpa [membersOf, hg, hv] using h2
          simp [rawSadd, hg, hv, hm]

theorem isStrKey_saddState (st : RedisState) (k m x : String)
    (h : isStrKey st k = false) :
    isStrKey (saddState st k m) x = isStrKey st x := by
  by_cases hx : x = k
  · subst hx
    cases hg : stGet st x with
    | none => simp [saddState, isStrKey, hg, stGet_stSet]
    | some e =>
        cases hv : e.val with
        | str v => exact absurd h (by simp [isStrKey, hg, hv])
        | set ms =>
            by_cases hm : m ∈ ms
            · simp [saddState, hg, hv, hm]
            · simp [saddState, isStrKey, hg, hv, hm, stGet_stSet]
  · unfold isStrKey
    rw [saddState_stGet_ne st k m x hx]

theorem isStrKey_expireState (st : RedisState) (k x : String) (ttl : Nat) :
    isStrKey (expireState st k ttl) x = isStrKey st x := by
  by_cases hx : x = k
  · subst hx
    cases hg : stGet st x with
    | none => simp [expireState, hg]
    | some e => simp [isStrKey, expireState, hg, stGet_stSet]
  · unfold isStrKey
    rw [expireState_stGet_ne st k x ttl hx]

theorem membersOf_expireState (st : RedisState) (k : String) (ttl : Nat) :
    membersOf (expireState st k ttl) k = membersOf st k := by
  cases hg : stGet st k with
  | none => simp [expireState, hg]
  | some e => simp [membersOf, expireState, hg, stGet_stSet]

theorem keyTtl_expire_of_isSome (st : RedisState) (k : String) (ttl : Nat)
    (h : (stGet st k).isSome = true) :
    keyTtl (expireState st k ttl) k = some ttl := by
  obtain ⟨e, he⟩ := Option.isSome_iff_exists.mp h
  simp [keyTtl, expireState, he, stGet_stSet]

/-! ## Running set_user_entity -/

theorem setUserEntityM_nofault (S : Strat) (pin : String)
    (entityId : Option String) (v : Jso)
    (masterPin marketplaceType marketplaceShopId : Option String)
    (ttlSeconds : Option Nat) (st : RedisState)
    (h1 : isStrKey
      (cSetState st
        (formatKey S.entityType pin entityId masterPin marketplaceType
          marketplaceShopId)
        v (ttlSeconds.getD S.defaultTtl))
      (formatUserTimelineKey S.entityType (pyOrOpt masterPin pin)) = false) :
    setUserEntityM S pin entityId v masterPin marketplaceType
        marketplaceShopId ttlSeconds [] st =
      RedisResult.ok true []
        (expireState
          (saddState
            (cSetState st
              (formatKey S.entityType pin entityId masterPin marketplaceType
                marketplaceShopId)
              v (ttlSeconds.getD S.defaultTtl))
            (formatUserTimelineKey S.entityType (pyOrOpt masterPin pin))
            (formatKey S.entityType pin entityId masterPin marketplaceType
              marketplaceShopId))
          (formatUserTimelineKey S.entityType (pyOrOpt masterPin pin))
          (ttlSeconds.getD S.defaultTtl * 2)) := by
  set key := formatKey S.entityType pin entityId masterPin marketplaceType
    marketplaceShopId with hkey
  set tk := formatUserTimelineKey S.entityType (pyOrOpt masterPin pin) with htk
  set t := ttlSeconds.getD S.defaultTtl with ht
  set st1 := cSetState st key v t with hst1
  obtain ⟨n, hn⟩ := sadd_nofault tk key st1 h1
  obtain ⟨b, hb⟩ := expire_nofault tk (t * 2) (saddState st1 tk key)
  show bindM (setM S key v ttlSeconds)
      (fun stored =>
        bindM
          (tryOr
            (bindM (prim (rawSadd tk key)) (fun _ =>
              bindM (prim (rawExpire tk (ttlSeconds.getD S.defaultTtl * 2)))
                (fun _ => pureM ())))
            ())
          (fun _ => pureM stored)) [] st = _
  unfold bindM
  rw [setM_nofault, ← ht, ← hst1]
  dsimp only
  rw [tryOr_eq]
  dsimp only
  rw [hn]
  dsimp only
  rw [hb]
  rfl

theorem setUserEntityM_fault_first (S : Strat) (pin : String)
    (entityId : Option String) (v : Jso)
    (masterPin marketplaceType marketplaceShopId : Option String)
    (ttlSeconds : Option Nat) (st : RedisState)
    (h1 : isStrKey st
      (formatUserTimelineKey S.entityType (pyOrOpt masterPin pin)) = false) :
    setUserEntityM S pin entityId v masterPin marketplaceType
        marketplaceShopId ttlSeconds [true] st =
      RedisResult.ok false []
        (expireState
          (saddState st
            (formatUserTimelineKey S.entityType (pyOrOpt masterPin pin))
            (formatKey S.entityType pin entityId masterPin marketplaceType
              marketplaceShopId))
          (formatUserTimelineKey S.entityType (pyOrOpt masterPin pin))
          (ttlSeconds.getD S.defaultTtl * 2)) := by
  set key := formatKey S.entityType pin entityId masterPin marketplaceType
    marketplaceShopId with hkey
  set tk := formatUserTimelineKey S.entityType (pyOrOpt masterPin pin) with htk
  set t := ttlSeconds.getD S.defaultTtl with ht
  obtain ⟨n, hn⟩ := sadd_nofault tk key st h1
  obtain ⟨b, hb⟩ := expire_nofault tk (t * 2) (saddState st tk key)
  have hset : setM S key v ttlSeconds [true] st = RedisResult.ok false [] st := rfl
  show bindM (setM S key v ttlSeconds)
      (fun stored =>
        bindM
          (tryOr
            (bindM (prim (rawSadd tk key)) (fun _ =>
              bindM (prim (rawExpire tk (ttlSeconds.getD S.defaultTtl * 2)))
                (fun _ => pureM ())))
            ())
          (fun _ => pureM stored)) [true] st = _
  unfold bindM
  rw [hset, ← ht]
  dsimp only
  rw [tryOr_eq]
  dsimp only
  rw [hn]
  dsimp only
  rw [hb]
  rfl

/-- Claim C10: set_user_entity is not atomic across the value write and
the index write: when storing the value fails (here the SETEX backend
call raises, so set returns false), the member key is still added to the
owner timeline set and the timeline TTL is still refreshed to twice the
entry TTL, while the value entry itself is never written; the returned
boolean reflects only the value write. -/
theorem C10_set_user_entity_not_atomic :
    ∀ (S : Strat) (pin : String) (entityId : Option String) (v : Jso)
      (masterPin marketplaceType marketplaceShopId : Option String)
      (ttlSeconds : Option Nat) (st : RedisState),
      isStrKey st
        (formatUserTimelineKey S.entityType (pyOrOpt masterPin pin)) = false →
      formatKey S.entityType pin entityId masterPin marketplaceType
          marketplaceShopId ≠
        formatUserTimelineKey S.entityType (pyOrOpt masterPin pin) →
      (let key := formatKey S.entityType pin entityId masterPin
         marketplaceType marketplaceShopId
       let tk := formatUserTimelineKey S.entityType (pyOrOpt masterPin pin)
       let t := ttlSeconds.getD S.defaultTtl
       let stF := expireState (saddState st tk key) tk (t * 2)
       setUserEntityM S pin entityId v masterPin marketplaceType
           marketplaceShopId ttlSeconds [true] st =
         RedisResult.ok false [] stF ∧
       stGet stF key = stGet st key ∧
       key ∈ membersOf stF tk ∧
       keyTtl stF tk = some (t * 2)) := by
  intro S pin entityId v masterPin marketplaceType marketplaceShopId
    ttlSeconds st h1 h2
  set key := formatKey S.entityType pin entityId masterPin marketplaceType
    marketplaceShopId with hkey
  set tk := formatUserTimelineKey S.entityType (pyOrOpt masterPin pin) with htk
  set t := ttlSeconds.getD S.defaultTtl with ht
  refine ⟨setUserEntityM_fault_first S pin entityId v masterPin
    marketplaceType marketplaceShopId ttlSeconds st h1, ?_, ?_, ?_⟩
  · rw [expireState_stGet_ne _ _ _ _ h2, saddState_stGet_ne _ _ _ _ h2]
  · rw [membersOf_expireState]
    exact saddState_mem st tk key h1
  · exact keyTtl_expire_of_isSome _ _ _ (saddState_isSome st tk key)

/-- Witness for C10 at a concrete instance: the first backend call (the
SETEX) raises, the entity entry is never created, yet the timeline set
gains the member key with TTL 100 = 2 x 50 and the call returns false. -/
theorem C10_witness :
    setUserEntityM ⟨"ads", 50⟩ "U1" (some "A1") (Jso.num 7) none none none
        none [true] [] =
      RedisResult.ok false []
        [("user:U1:ads:timeline",
          ⟨RVal.set ["user:U1:ads:A1"], some 100⟩)] ∧
    "user:U1:ads:A1" ∈
      membersOf
        [("user:U1:ads:timeline",
          ⟨RVal.set ["user:U1:ads:A1"], some 100⟩)]
        "user:U1:ads:timeline" := by
  have h := C10_set_user_entity_not_atomic ⟨"ads", 50⟩ "U1" (some "A1")
    (Jso.num 7) none none none none [] (by decide) (by decide)
  refine ⟨h.1.trans (by decide), by decide⟩

/-! ## The add_reference_to_sets loop -/

theorem addRefLoop_char (vk : String) (expTtl : Nat) :
    ∀ (setKeys : List String) (updated : Nat) (st : RedisState),
      (∀ sk ∈ setKeys, isStrKey st sk = false) →
      (addRefLoop vk expTtl setKeys updated st).1 = updated + setKeys.length ∧
      (∀ x, x ∉ setKeys →
        stGet (addRefLoop vk expTtl setKeys updated st).2 x = stGet st x) ∧
      (∀ sk ∈ setKeys,
        keyTtl (addRefLoop vk expTtl setKeys updated st).2 sk = some expTtl ∧
        vk ∈ membersOf (addRefLoop vk expTtl setKeys updated st).2 sk) := by
  intro setKeys
  induction setKeys with
  | nil =>
      intro updated st h
      refine ⟨by simp [addRefLoop], ?_, ?_⟩
      · intro x hx
        simp [addRefLoop]
      · intro sk hsk
        simp at hsk
  | cons sk0 rest ih =>
      intro updated st h
      have h0 : isStrKey st sk0 = false := h sk0 (List.mem_cons_self _ _)
      obtain ⟨n, hn⟩ := rawSadd_ok sk0 vk st h0
      obtain ⟨b, hb⟩ := rawExpire_ok sk0 expTtl (saddState st sk0 vk)
      have hstep : addRefLoop vk expTtl (sk0 :: rest) updated st =
          addRefLoop vk expTtl rest (updated + 1)
            (expireState (saddState st sk0 vk) sk0 expTtl) := by
        show (match rawSadd sk0 vk st with
              | Except.error _ => (updated, st)
              | Except.ok (_, st1) =>
                  match rawExpire sk0 expTtl st1 with
                  | Except.ok (_, st2) =>
                      addRefLoop vk expTtl rest (updated + 1) st2
                  | Except.error _ => (updated, st1)) = _
        rw [hn]
        dsimp only
        rw [hb]
      set st2 := expireState (saddState st sk0 vk) sk0 expTtl with hst2
      have hrest : ∀ sk ∈ rest, isStrKey st2 sk = false := by
        intro sk hsk
        rw [hst2, isStrKey_expireState, isStrKey_saddState st sk0 vk sk h0]
        exact h sk (List.mem_cons_of_mem _ hsk)
      obtain ⟨ihc, ihu, ihm⟩ := ih (updated + 1) st2 hrest
      refine ⟨?_, ?_, ?_⟩
      · rw [hstep, ihc]
        simp [List.length_cons]
        omega
      · intro x hx
        have hx0 : x ≠ sk0 := fun hc => hx (hc ▸ List.mem_cons_self _ _)
        have hxr : x ∉ rest := fun hc => hx (List.mem_cons_of_mem _ hc)
        rw [hstep, ihu x hxr, hst2, expireState_stGet_ne _ _ _ _ hx0,
          saddState_stGet_ne _ _ _ _ hx0]
      · intro sk hsk
        rcases List.mem_cons.mp hsk with heq | hmem
        · subst heq
          by_cases hr : sk ∈ rest
          · rw [hstep]
            exact ihm sk hr
          · have hu := ihu sk hr
            rw [hstep]
            constructor
            · show keyTtl (addRefLoop vk expTtl rest (updated + 1) st2).2 sk = _
              unfold keyTtl
              rw [hu, hst2]
              have := keyTtl_expire_of_isSome (saddState st sk vk) sk expTtl
                (saddState_isSome st sk vk)
              unfold keyTtl at this
              exact this
            · show vk ∈ membersOf (addRefLoop vk expTtl rest (updated + 1) st2).2 sk
              unfold membersOf
              rw [hu, hst2]
              have h3 := membersOf_expireState (saddState st sk vk) sk expTtl
              unfold membersOf at h3
              rw [h3]
              have h4 := saddState_mem st sk vk h0
              unfold membersOf at h4
              exact h4
        · rw [hstep]
          exact ihm sk hmem

/-! ## The resolve loop leaves the keyspace unchanged -/

theorem resolveLoop_state (setKey : String)
    (loader : String → Except Unit (Option Jso)) (readd : Bool) :
    ∀ (missing : List String) (d : List (String × Option Jso))
      (st : RedisState),
      isSetKey st setKey = true →
      (∀ m ∈ missing, m ∈ membersOf st setKey) →
      (resolveLoop setKey loader readd missing (d, st)).2 = st := by
  intro missing
  induction missing with
  | nil => intro d st h1 h2; rfl
  | cons m0 rest ih =>
      intro d st h1 h2
      show (match loader m0 with
            | Except.error _ => resolveLoop setKey loader readd rest (d, st)
            | Except.ok recovered =>
                let d2 := pdSet d m0 recovered
                if readd && recovered.isSome then
                  match rawSadd setKey m0 st with
                  | Except.ok (_, st2) =>
                      resolveLoop setKey loader readd rest (d2, st2)
                  | Except.error _ =>
                      resolveLoop setKey loader readd rest (d2, st)
                else resolveLoop setKey loader readd rest (d2, st)).2 = st
      cases hl : loader m0 with
      | error e =>
          exact ih d st h1 (fun m hm => h2 m (List.mem_cons_of_mem _ hm))
      | ok recovered =>
          dsimp only
          by_cases hr : readd && recovered.isSome
          · rw [if_pos hr,
              rawSadd_mem_noop setKey m0 st h1 (h2 m0 (List.mem_cons_self _ _))]
            exact ih _ st h1 (fun m hm => h2 m (List.mem_cons_of_mem _ hm))
          · rw [if_neg hr]
            exact ih _ st h1 (fun m hm => h2 m (List.mem_cons_of_mem _ hm))

theorem getValuesBySet_missing_sub (st : RedisState) (memberKeys : List String)
    (m : String)
    (hm : m ∈ ((cGetMany st memberKeys).filter
      (fun kv => kv.2.isNone)).map Prod.fst) : m ∈ memberKeys := by
  rcases List.mem_map.mp hm with ⟨kv, hkv, hfst⟩
  have hkv2 : kv ∈ cGetMany st memberKeys := List.mem_of_mem_filter hkv
  apply cGetMany_mem_keys st memberKeys
  rw [← hfst]
  exact List.mem_map_of_mem Prod.fst hkv2

theorem getValuesBySet_state (st : RedisState) (setKey : String)
    (fallbackLoader : Option (String → Except Unit (Option Jso)))
    (readd : Bool) : (getValuesBySet st setKey fallbackLoader readd).2 = st := by
  unfold getValuesBySet
  cases hg : stGet st setKey with
  | none =>
      simp [rawSmembers, hg]
  | some e =>
      cases hv : e.val with
      | str v => simp [rawSmembers, hg, hv]
      | set ms =>
          have hsm : rawSmembers setKey st = Except.ok (ms, st) := by
            simp [rawSmembers, hg, hv]
          rw [hsm]
          dsimp only
          by_cases hmk : ms = []
          · simp [hmk]
          · rw [if_neg hmk]
            cases fallbackLoader with
            | none => rfl
            | some loader =>
                apply resolveLoop_state
                · simp [isSetKey, hg, hv]
                · intro m hm
                  have hms : m ∈ ms := getValuesBySet_missing_sub st ms m hm
                  simpa [membersOf, hg, hv] using hms

/-- Claim C3: the TTL margin of index-touching writes.  (1) set_user_entity
with entry TTL t writes exactly one entry (the member entry, with TTL t)
and immediately afterwards the timeline index TTL equals t * 2, so it is
at least 2 x the TTL of every entry just written.  (2)
add_reference_to_sets writes no entries at all (string entries are
untouched, so the 2 x bound over the entries it writes is vacuous); the
target sets get TTL ttl_seconds when supplied and 2 x the default TTL
otherwise.  (3) get_values_by_set (re-insertion during resolve included)
leaves the whole keyspace unchanged, so it too writes no entries. -/
theorem C3_ttl_margin :
    (∀ (S : Strat) (pin : String) (entityId : Option String) (v : Jso)
       (masterPin marketplaceType marketplaceShopId : Option String)
       (ttlSeconds : Option Nat) (st : RedisState),
       formatKey S.entityType pin entityId masterPin marketplaceType
           marketplaceShopId ≠
         formatUserTimelineKey S.entityType (pyOrOpt masterPin pin) →
       isStrKey st
         (formatUserTimelineKey S.entityType (pyOrOpt masterPin pin)) = false →
       (let key := formatKey S.entityType pin entityId masterPin
          marketplaceType marketplaceShopId
        let tk := formatUserTimelineKey S.entityType (pyOrOpt masterPin pin)
        let t := ttlSeconds.getD S.defaultTtl
        let stF := expireState (saddState (cSetState st key v t) tk key) tk
          (t * 2)
        setUserEntityM S pin entityId v masterPin marketplaceType
            marketplaceShopId ttlSeconds [] st =
          RedisResult.ok true [] stF ∧
        stGet stF key = some ⟨RVal.str v, some t⟩ ∧
        keyTtl stF tk = some (t * 2) ∧
        2 * t ≤ (keyTtl stF tk).getD 0 ∧
        key ∈ membersOf stF tk)) ∧
    (∀ (S : Strat) (vk : String) (setKeys : List String)
       (ttlSeconds : Option Nat) (st : RedisState),
       (∀ sk ∈ setKeys, isStrKey st sk = false) →
       (repoAddReferenceToSets S vk setKeys ttlSeconds st).1 =
         setKeys.length ∧
       (∀ x, isStrKey st x = true →
         stGet (repoAddReferenceToSets S vk setKeys ttlSeconds st).2 x =
           stGet st x) ∧
       (∀ sk ∈ setKeys,
         keyTtl (repoAddReferenceToSets S vk setKeys ttlSeconds st).2 sk =
           some (ttlSeconds.getD (S.defaultTtl * 2)) ∧
         vk ∈ membersOf (repoAddReferenceToSets S vk setKeys ttlSeconds st).2 sk)) ∧
    (∀ (st : RedisState) (setKey : String)
       (fallbackLoader : Option (String → Except Unit (Option Jso)))
       (readd : Bool),
       (getValuesBySet st setKey fallbackLoader readd).2 = st) := by
  refine ⟨?_, ?_, ?_⟩
  · intro S pin entityId v masterPin marketplaceType marketplaceShopId
      ttlSeconds st h2 h1
    set key := formatKey S.entityType pin entityId masterPin marketplaceType
      marketplaceShopId with hkey
    set tk := formatUserTimelineKey S.entityType (pyOrOpt masterPin pin)
      with htk
    set t := ttlSeconds.getD S.defaultTtl with ht
    set st1 := cSetState st key v t with hst1
    have h1b : isStrKey st1 tk = false := by
      unfold isStrKey
      rw [hst1]
      unfold cSetState
      rw [stGet_stSet_ne st key tk _ (fun hc => h2 hc.symm)]
      unfold isStrKey at h1
      exact h1
    refine ⟨setUserEntityM_nofault S pin entityId v masterPin marketplaceType
      marketplaceShopId ttlSeconds st h1b, ?_, ?_, ?_, ?_⟩
    · rw [expireState_stGet_ne _ _ _ _ h2, saddState_stGet_ne _ _ _ _ h2]
      exact stGet_stSet st key _
    · exact keyTtl_expire_of_isSome _ _ _ (saddState_isSome st1 tk key)
    · rw [keyTtl_expire_of_isSome _ _ _ (saddState_isSome st1 tk key)]
      show 2 * t ≤ t * 2
      omega
    · rw [membersOf_expireState]
      exact saddState_mem st1 tk key h1b
  · intro S vk setKeys ttlSeconds st h
    have hc := addRefLoop_char vk (ttlSeconds.getD (S.defaultTtl * 2)) setKeys
      0 st h
    refine ⟨?_, ?_, ?_⟩
    · rw [show repoAddReferenceToSets S vk setKeys ttlSeconds st =
        addRefLoop vk (ttlSeconds.getD (S.defaultTtl * 2)) setKeys 0 st from
        rfl]
      rw [hc.1]
      omega
    · intro x hx
      have hxn : x ∉ setKeys := by
        intro hmem
        rw [h x hmem] at hx
        cases hx
      exact hc.2.1 x hxn
    · exact hc.2.2
  · exact getValuesBySet_state

/-- Witness for C3 at concrete instances: a fresh keyspace, entity TTL 50;
set_user_entity leaves the timeline with TTL 100 and the entry with TTL
50; add_reference_to_sets with no explicit TTL gives the set TTL 2 x 50;
resolve leaves a concrete keyspace unchanged. -/
theorem C3_witness :
    (setUserEntityM ⟨"ads", 50⟩ "U1" (some "A1") (Jso.num 7) none none none
        none [] [] =
      RedisResult.ok true []
        (expireState
          (saddState (cSetState [] "user:U1:ads:A1" (Jso.num 7) 50)
            "user:U1:ads:timeline" "user:U1:ads:A1")
          "user:U1:ads:timeline" 100) ∧
     keyTtl
        (expireState
          (saddState (cSetState [] "user:U1:ads:A1" (Jso.num 7) 50)
            "user:U1:ads:timeline" "user:U1:ads:A1")
          "user:U1:ads:timeline" 100) "user:U1:ads:timeline" = some 100) ∧
    ((repoAddReferenceToSets ⟨"ads", 50⟩ "orders:meli:S1:O9"
        ["user:U1:orders:timeline"] none []).1 = 1 ∧
     keyTtl (repoAddReferenceToSets ⟨"ads", 50⟩ "orders:meli:S1:O9"
        ["user:U1:orders:timeline"] none []).2 "user:U1:orders:timeline" =
       some 100) ∧
    (getValuesBySet [("own", ⟨RVal.set ["A"], some 5⟩)] "own" none true).2 =
      [("own", ⟨RVal.set ["A"], some 5⟩)] := by
  have ha := (C3_ttl_margin.1 ⟨"ads", 50⟩ "U1" (some "A1") (Jso.num 7) none
    none none none [] (by decide) (by decide))
  have hb := (C3_ttl_margin.2.1 ⟨"ads", 50⟩ "orders:meli:S1:O9"
    ["user:U1:orders:timeline"] none [] (fun sk hsk => rfl))
  have hcw := C3_ttl_margin.2.2 [("own", ⟨RVal.set ["A"], some 5⟩)] "own"
    none true
  refine ⟨⟨?_, ?_⟩, ⟨?_, ?_⟩, hcw⟩
  · exact ha.1
  · exact ha.2.2.1
  · exact hb.1
  · exact (hb.2.2 "user:U1:orders:timeline" (by decide)).1.trans (by decide)

/-! ## Key formatter round trip -/

theorem mk_data_eq (s : String) : String.mk s.data = s := rfl

theorem formatKey_external (et pin eid : String) (mp : Option String)
    (mt msid : String) (het : et ≠ "accounts") (hmt : mt ≠ "")
    (hmsid : msid ≠ "") (heid : eid ≠ "") :
    formatKey et pin (some eid) mp (some mt) (some msid) =
      et ++ ":" ++ mt ++ ":" ++ msid ++ ":" ++ eid := by
  unfold formatKey
  rw [if_neg het]
  simp [truthy, bne_iff_ne, hmt, hmsid, heid]

theorem splitKey_external (et mt msid eid : String)
    (h1 : ':' ∉ et.data) (h2 : ':' ∉ mt.data) (h3 : ':' ∉ msid.data)
    (h4 : ':' ∉ eid.data) :
    pyStrSplit (et ++ ":" ++ mt ++ ":" ++ msid ++ ":" ++ eid) ':' =
      [et, mt, msid, eid] := by
  unfold pyStrSplit
  have hcolon : (":" : String).data = [':'] := rfl
  have hdata : (et ++ ":" ++ mt ++ ":" ++ msid ++ ":" ++ eid).data =
      et.data ++ ':' :: (mt.data ++ ':' :: (msid.data ++ ':' :: eid.data)) := by
    simp [String.data_append, hcolon]
  rw [hdata, pySplit_append ':' et.data _ h1, pySplit_append ':' mt.data _ h2,
    pySplit_append ':' msid.data _ h3, pySplit_no_sep ':' eid.data h4]
  simp [mk_data_eq]

/-- Claim C8 (amended): the round trip of the external key shape.  For
every entity_type other than "user", "accounts" and "account" that
contains no colon, and non-empty colon-free marketplace_type, shop_id and
entity_id, parsing the formatted external key recovers exactly the four
components. -/
theorem C8_format_parse_roundtrip :
    ∀ (et pin mt msid eid : String) (mp : Option String),
      et ≠ "user" → et ≠ "accounts" → et ≠ "account" → ':' ∉ et.data →
      mt ≠ "" → ':' ∉ mt.data → msid ≠ "" → ':' ∉ msid.data →
      eid ≠ "" → ':' ∉ eid.data →
      parseKey (formatKey et pin (some eid) mp (some mt) (some msid)) =
        some ⟨none, et, some mt, some msid, some eid⟩ := by
  intro et pin mt msid eid mp huser haccounts haccount hc1 hmt hc2 hmsid hc3
    heid hc4
  rw [formatKey_external et pin eid mp mt msid haccounts hmt hmsid heid]
  unfold parseKey
  rw [splitKey_external et mt msid eid hc1 hc2 hc3 hc4]
  simp [List.getD, huser, haccount]

/-- Counterexample to C8 as frozen: the claim only excludes the
entity_types "user" and "accounts", but the entity_type "account" (and
any entity_type containing a colon) also breaks the round trip: the
formatted key parses into the accounts shape (respectively shifts all
components), so the entity_id comes back as the shop_id. -/
theorem C8_counterexample :
    ("account" ≠ "user" ∧ "account" ≠ "accounts" ∧ "account" ≠ "" ∧
      ':' ∉ "account".data) ∧
    formatKey "account" "p" (some "e") none (some "m") (some "s") =
      "account:m:s:e" ∧
    parseKey "account:m:s:e" =
      some ⟨none, "accounts", some "m", some "s", some "s"⟩ ∧
    (some "s" ≠ some "e" ∧ "accounts" ≠ "account") ∧
    ("x:y" ≠ "user" ∧ "x:y" ≠ "accounts" ∧ "x:y" ≠ "account") ∧
    formatKey "x:y" "p" (some "e") none (some "m") (some "s") = "x:y:m:s:e" ∧
    parseKey "x:y:m:s:e" = some ⟨none, "x", some "y", some "m", some "s"⟩ ∧
    "x" ≠ "x:y" := by
  refine ⟨by decide, by decide, by decide, by decide, by decide, by decide,
    by decide, by decide⟩

/-- Witness for the amended C8 at the shapes actually used by the code
(the orders repository). -/
theorem C8_witness :
    parseKey (formatKey "orders" "U1" (some "O9") none (some "meli")
        (some "S1")) =
      some ⟨none, "orders", some "meli", some "S1", some "O9"⟩ :=
  C8_format_parse_roundtrip "orders" "U1" "meli" "S1" "O9" none (by decide)
    (by decide) (by decide) (by decide) (by decide) (by decide) (by decide)
    (by decide) (by decide) (by decide)

/-- Claim C1 (amended): Repository.get.  On a cache hit the value is
returned with no source access and no state change.  On a miss, exactly
one source lookup happens, on `parse_id_from_key(key) or key` (the parsed
id is used only when it is non-null AND non-empty, by Python truthiness);
a found entity is cached under the originally queried key and returned; a
null source answer returns null with the keyspace unchanged. -/
theorem C1_repo_get_cache_aside :
    ∀ (R : Repo) (st : RedisState) (k : String),
      (∀ v, cGet st k = some v → repoGet R st k = (some v, st, [])) ∧
      (cGet st k = none →
        (repoGet R st k).2.2 = [Event.dbGet (pyOrOpt (R.parseId k) k)] ∧
        (R.db (pyOrOpt (R.parseId k) k) = none →
          repoGet R st k =
            (none, st, [Event.dbGet (pyOrOpt (R.parseId k) k)])) ∧
        (∀ e, R.db (pyOrOpt (R.parseId k) k) = some e →
          repoGet R st k =
            (some e, cSetState st k e R.S.defaultTtl,
             [Event.dbGet (pyOrOpt (R.parseId k) k)]))) := by
  intro R st k
  constructor
  · intro v hv
    unfold repoGet
    rw [hv]
  · intro hmiss
    unfold repoGet
    rw [hmiss]
    refine ⟨?_, ?_, ?_⟩
    · cases hdb : R.db (pyOrOpt (R.parseId k) k) <;> simp [hdb]
    · intro hdb
      simp [hdb]
    · intro e hdb
      simp [hdb]

/-- Counterexample to C1 as frozen: the claim says the miss-path source
lookup happens on parse_id_from_key(K) whenever that is non-null.  The
code uses Python truthiness (`parsed_id if parsed_id else id`), so a
non-null but EMPTY parsed id is discarded: with a parser returning "",
and a source that has an entity under "" but none under the key itself,
get performs its single lookup on the key and returns null, while the
claim predicts a lookup on "" returning the entity. -/
theorem C1_counterexample :
    (let R : Repo :=
      ⟨⟨"ads", 10⟩, fun s => if s = "" then some (Jso.str "v") else none,
       fun e => e, fun _ => some "", none, fun _ _ st2 => (st2, false)⟩
     R.parseId "k" = some "" ∧ (some "" : Option String) ≠ none ∧
     R.db "" = some (Jso.str "v") ∧ cGet [] "k" = none ∧
     repoGet R [] "k" = (none, [], [Event.dbGet "k"])) := by
  refine ⟨rfl, by decide, rfl, rfl, rfl⟩

/-- Witness for the amended C1: a hit returns the cached value without a
source event, and a miss performs exactly one source lookup and caches
the found entity under the queried key. -/
theorem C1_witness :
    (let R : Repo :=
      ⟨⟨"ads", 10⟩, fun s => if s = "b" then some (Jso.str "y") else none,
       fun e => e, fun _ => none, none, fun _ _ st2 => (st2, false)⟩
     repoGet R [("a", ⟨RVal.str (Jso.str "x"), some 9⟩)] "a" =
       (some (Jso.str "x"), [("a", ⟨RVal.str (Jso.str "x"), some 9⟩)], []) ∧
     repoGet R [] "b" =
       (some (Jso.str "y"), cSetState [] "b" (Jso.str "y") 10,
        [Event.dbGet "b"])) := by
  refine ⟨?_, ?_⟩
  · exact (C1_repo_get_cache_aside _ _ "a").1 (Jso.str "x") rfl
  · exact ((C1_repo_get_cache_aside _ [] "b").2 rfl).2.2 (Jso.str "y") rfl

/-! ## The resolve loop map characterization -/

theorem resolveLoop_map (setKey : String)
    (loader : String → Except Unit (Option Jso)) (readd : Bool) :
    ∀ (missing : List String) (d : List (String × Option Jso))
      (st : RedisState),
      missing.Nodup →
      (∀ m ∈ missing, pdGet d m = some none) →
      ∀ k, pdGet (resolveLoop setKey loader readd missing (d, st)).1 k =
        if k ∈ missing then
          some (match loader k with
                | Except.ok r => r
                | Except.error _ => none)
        else pdGet d k := by
  intro missing
  induction missing with
  | nil =>
      intro d st hnd hvals k
      simp [resolveLoop]
  | cons m0 rest ih =>
      intro d st hnd hvals k
      have hm0 : m0 ∉ rest := (List.nodup_cons.mp hnd).1
      have hndr : rest.Nodup := (List.nodup_cons.mp hnd).2
      show (pdGet
        (match loader m0 with
         | Except.error _ => resolveLoop setKey loader readd rest (d, st)
         | Except.ok recovered =>
             let d2 := pdSet d m0 recovered
             if readd && recovered.isSome then
               match rawSadd setKey m0 st with
               | Except.ok (_, st2) =>
                   resolveLoop setKey loader readd rest (d2, st2)
               | Except.error _ =>
                   resolveLoop setKey loader readd rest (d2, st)
             else resolveLoop setKey loader readd rest (d2, st)).1 k) = _
      cases hl : loader m0 with
      | error e =>
          rw [ih d st hndr (fun m hm => hvals m (List.mem_cons_of_mem _ hm))]
          by_cases hkr : k ∈ rest
          · simp [hkr, List.mem_cons]
          · rw [if_neg hkr]
            by_cases hkm : k = m0
            · subst hkm
              rw [if_pos (List.mem_cons_self _ _), hvals k (List.mem_cons_self _ _),
                hl]
            · rw [if_neg (by
                rw [List.mem_cons]
                rintro (hc | hc)
                · exact hkm hc
                · exact hkr hc)]
      | ok recovered =>
          have hvals2 : ∀ m ∈ rest, pdGet (pdSet d m0 recovered) m = some none := by
            intro m hm
            rw [pdGet_pdSet]
            rw [if_neg (fun hc : m0 = m => hm0 (hc ▸ hm))]
            exact hvals m (List.mem_cons_of_mem _ hm)
          have hfin : pdGet (resolveLoop setKey loader readd rest
              (pdSet d m0 recovered, st)).1 k =
              if k ∈ rest then
                some (match loader k with
                      | Except.ok r => r
                      | Except.error _ => none)
              else pdGet (pdSet d m0 recovered) k :=
            ih (pdSet d m0 recovered) st hndr hvals2 k
          have hcomb : ∀ (st3 : RedisState),
              pdGet (resolveLoop setKey loader readd rest
                (pdSet d m0 recovered, st3)).1 k =
              (if k ∈ m0 :: rest then
                some (match loader k with
                      | Except.ok r => r
                      | Except.error _ => none)
              else pdGet d k) := by
            intro st3
            rw [ih (pdSet d m0 recovered) st3 hndr hvals2 k]
            by_cases hkr : k ∈ rest
            · simp [hkr, List.mem_cons]
            · rw [if_neg hkr, pdGet_pdSet]
              by_cases hkm : m0 = k
              · subst hkm
                rw [if_pos rfl, if_pos (List.mem_cons_self _ _), hl]
              · rw [if_neg hkm]
                rw [if_neg (by
                  rw [List.mem_cons]
                  rintro (hc | hc)
                  · exact hkm hc.symm
                  · exact hkr hc)]
          dsimp only
          by_cases hr : readd && recovered.isSome
          · rw [if_pos hr]
            cases hs : rawSadd setKey m0 st with
            | ok p =>
                obtain ⟨r1, st2⟩ := p
                dsimp only
                exact hcomb st2
            | error e2 =>
                dsimp only
                exact hcomb st
          · rw [if_neg hr]
            exact hcomb st

theorem getValuesBySet_lookup (st : RedisState) (setKey : String)
    (loader : String → Except Unit (Option Jso)) (readd : Bool) :
    ∀ k, pdGet (getValuesBySet st setKey (some loader) readd).1 k =
      if k ∈ membersOf st setKey then
        some (match pdGet (cGetMany st (membersOf st setKey)) k with
              | some (some v) => some v
              | _ =>
                  match loader k with
                  | Except.ok r => r
                  | Except.error _ => none)
      else none := by
  intro k
  cases hg : stGet st setKey with
  | none =>
      simp [getValuesBySet, rawSmembers, membersOf, hg, pdGet]
  | some e =>
      cases hv : e.val with
      | str v => simp [getValuesBySet, rawSmembers, membersOf, hg, hv, pdGet]
      | set ms =>
          have hmem : membersOf st setKey = ms := by simp [membersOf, hg, hv]
          have hsm : rawSmembers setKey st = Except.ok (ms, st) := by
            simp [rawSmembers, hg, hv]
          rw [hmem]
          unfold getValuesBySet
          rw [hsm]
          dsimp only
          by_cases hms : ms = []
          · subst hms
            simp [pdGet]
          · rw [if_neg hms]
            set vm := cGetMany st ms with hvm
            set missing := (vm.filter (fun kv => kv.2.isNone)).map
              (fun kv => kv.1) with hmissing
            have hnd : missing.Nodup := by
              apply List.Nodup.sublist _ (cGetMany_keys_nodup st ms)
              rw [hmissing, hvm]
              show (((cGetMany st ms).filter (fun kv => kv.2.isNone)).map
                Prod.fst).Sublist ((cGetMany st ms).map Prod.fst)
              exact (List.filter_sublist _).map Prod.fst
            have hvals : ∀ m ∈ missing, pdGet vm m = some none := by
              intro m hm
              rw [hmissing] at hm
              rcases List.mem_map.mp hm with ⟨kv, hkv, hfst⟩
              have h1 : kv ∈ vm := List.mem_of_mem_filter hkv
              have h2 : kv.2.isNone := by
                have := List.of_mem_filter hkv
                simpa using this
              have h3 : kv.2 = none := Option.isNone_iff_eq_none.mp h2
              have h4 : pdGet vm kv.1 = some kv.2 :=
                pdGet_of_mem_nodup vm kv.1 kv.2 (cGetMany_keys_nodup st ms)
                  (by rw [show (kv.1, kv.2) = kv from rfl]; exact h1)
              rw [← hfst, h4, h3]
            rw [resolveLoop_map setKey loader readd missing vm st hnd hvals k]
            by_cases hkms : k ∈ ms
            · rw [if_pos hkms]
              have hbv := cGetMany_lookup st ms k
              rw [if_pos hkms, ← hvm] at hbv
              by_cases hbn :
                  (if ms.any (fun k2 => isSetKey st k2) then none
                   else decodeVal (stGetStrVal st k)) = (none : Option Jso)
              · have hkm : k ∈ missing := by
                  rw [hmissing]
                  have hmem2 : (k, (none : Option Jso)) ∈ vm := by
                    apply mem_of_pdGet
                    rw [hbv, hbn]
                  refine List.mem_map.mpr ⟨(k, none), ?_, rfl⟩
                  exact List.mem_filter.mpr ⟨hmem2, by simp⟩
                rw [if_pos hkm, hbv, hbn]
              · obtain ⟨v2, hv2⟩ := Option.ne_none_iff_exists.mp hbn
                have hknm : k ∉ missing := by
                  intro hkm
                  have hx := hvals k hkm
                  rw [hbv, ← hv2] at hx
                  simp at hx
                rw [if_neg hknm, hbv, ← hv2]
            · rw [if_neg hkms]
              have hknm : k ∉ missing := by
                intro hkm
                exact hkms (getValuesBySet_missing_sub st ms k
                  (by rw [hmissing] at hkm; exact hkm))
              rw [if_neg hknm]
              have hbv := cGetMany_lookup st ms k
              rw [if_neg hkms, ← hvm] at hbv
              exact hbv

/-- Claim C2 (amended): during get_values_by_set, each member whose
batch-fetched value is null has the fallback loader invoked on it and the
returned value (null on a loader exception) placed in the returned map
under the member key; resolve itself never writes the value back to the
store and never drops a reference: whatever the loader returns and
whether or not readd_on_success is set, the whole keyspace is unchanged
(the re-insertion SADD is a no-op because the member is still in the
owner set), so a member whose loader returned null is still in the owner
set afterwards. -/
theorem C2_resolve_no_writeback_no_drop :
    ∀ (st : RedisState) (setKey : String)
      (loader : String → Except Unit (Option Jso)) (readd : Bool),
      repoGetValuesBySet st setKey (some loader) readd =
        getValuesBySet st setKey (some loader) readd ∧
      (getValuesBySet st setKey (some loader) readd).2 = st ∧
      (∀ k, pdGet (getValuesBySet st setKey (some loader) readd).1 k =
        if k ∈ membersOf st setKey then
          some (match pdGet (cGetMany st (membersOf st setKey)) k with
                | some (some v) => some v
                | _ =>
                    match loader k with
                    | Except.ok r => r
                    | Except.error _ => none)
        else none) := by
  intro st setKey loader readd
  exact ⟨rfl, getValuesBySet_state st setKey (some loader) readd,
    getValuesBySet_lookup st setKey loader readd⟩

/-- Counterexample to C2 as frozen: owner set {A, D}, empty value store,
a loader that recreates A and fails (returns null) on D, with
readd_on_success.  The resolved map is as the claim says, but the claim
further predicts that the recreated value of A is written back to the
store under "A" and that the dead reference D is dropped from the owner
set; the code does neither: the store still misses "A" and "D" is still
a member, the keyspace being completely unchanged. -/
theorem C2_counterexample :
    (let st0 : RedisState := [("own", ⟨RVal.set ["A", "D"], some 5⟩)]
     let loader : String → Except Unit (Option Jso) := fun k =>
       if k = "A" then Except.ok (some (Jso.str "v")) else Except.ok none
     pdGet (getValuesBySet st0 "own" (some loader) true).1 "A" =
       some (some (Jso.str "v")) ∧
     pdGet (getValuesBySet st0 "own" (some loader) true).1 "D" = some none ∧
     cGet (getValuesBySet st0 "own" (some loader) true).2 "A" = none ∧
     "D" ∈ membersOf (getValuesBySet st0 "own" (some loader) true).2 "own" ∧
     (getValuesBySet st0 "own" (some loader) true).2 = st0) := by
  exact ⟨by decide, by decide, by decide, by decide, by decide⟩

/-! ## The get_many hydration loop -/

theorem pdGet_cons_ne {α : Type} (kv : String × α) (rest : List (String × α))
    (k : String) (h : k ≠ kv.1) : pdGet (kv :: rest) k = pdGet rest k := by
  show (if kv.1 = k then some kv.2 else pdGet rest k) = pdGet rest k
  rw [if_neg (fun hc => h hc.symm)]

theorem pdGet_cons_self {α : Type} (kv : String × α)
    (rest : List (String × α)) : pdGet (kv :: rest) kv.1 = some kv.2 := by
  show (if kv.1 = kv.1 then some kv.2 else pdGet rest kv.1) = some kv.2
  rw [if_pos rfl]

theorem hydrateLoop_char (R : Repo) :
    ∀ (items : List (String × Option Jso)) (d0 : List (String × Option Jso))
      (s0 : RedisState) (evs0 : List Event),
      (items.map Prod.fst).Nodup →
      ((items.foldl (hydrateStep R) (d0, s0, evs0)).2.2 =
        evs0 ++ (items.filter (fun kv => kv.2.isNone)).map
          (fun kv => Event.dbGet (pyOrOpt (R.parseId kv.1) kv.1)) ∧
      (∀ k, pdGet (items.foldl (hydrateStep R) (d0, s0, evs0)).1 k =
        if pdGet items k = some none then
          some (R.db (pyOrOpt (R.parseId k) k))
        else pdGet d0 k) ∧
      (∀ k, stGet (items.foldl (hydrateStep R) (d0, s0, evs0)).2.1 k =
        if pdGet items k = some none then
          match R.db (pyOrOpt (R.parseId k) k) with
          | some e => some ⟨RVal.str e, some R.S.defaultTtl⟩
          | none => stGet s0 k
        else stGet s0 k)) := by
  intro items
  induction items with
  | nil =>
      intro d0 s0 evs0 hnd
      refine ⟨by simp, ?_, ?_⟩
      · intro k
        simp [pdGet]
      · intro k
        simp [pdGet]
  | cons kv rest ih =>
      intro d0 s0 evs0 hnd
      have hk0 : kv.1 ∉ rest.map Prod.fst := by
        rw [List.map_cons, List.nodup_cons] at hnd
        exact hnd.1
      have hndr : (rest.map Prod.fst).Nodup := by
        rw [List.map_cons, List.nodup_cons] at hnd
        exact hnd.2
      have hrest0 : pdGet rest kv.1 = none :=
        pdGet_eq_none_of_not_mem rest kv.1 hk0
      cases hv0 : kv.2 with
      | some v =>
          have hstep : hydrateStep R (d0, s0, evs0) kv = (d0, s0, evs0) := by
            unfold hydrateStep
            rw [hv0]
          rw [List.foldl_cons, hstep]
          obtain ⟨ihe, ihm, ihs⟩ := ih d0 s0 evs0 hndr
          refine ⟨?_, ?_, ?_⟩
          · rw [ihe, List.filter_cons]
            simp [hv0]
          · intro k
            rw [ihm k]
            by_cases hkk : k = kv.1
            · subst hkk
              rw [pdGet_cons_self, hv0, hrest0]
              simp
            · rw [pdGet_cons_ne kv rest k hkk]
          · intro k
            rw [ihs k]
            by_cases hkk : k = kv.1
            · subst hkk
              rw [pdGet_cons_self, hv0, hrest0]
              simp
            · rw [pdGet_cons_ne kv rest k hkk]
      | none =>
          cases hdb : R.db (pyOrOpt (R.parseId kv.1) kv.1) with
          | none =>
              have hstep : hydrateStep R (d0, s0, evs0) kv =
                  (pdSet d0 kv.1 none, s0,
                   evs0 ++ [Event.dbGet (pyOrOpt (R.parseId kv.1) kv.1)]) := by
                unfold hydrateStep
                rw [hv0]
                dsimp only
                rw [hdb]
              rw [List.foldl_cons, hstep]
              obtain ⟨ihe, ihm, ihs⟩ := ih (pdSet d0 kv.1 none) s0
                (evs0 ++ [Event.dbGet (pyOrOpt (R.parseId kv.1) kv.1)]) hndr
              refine ⟨?_, ?_, ?_⟩
              · rw [ihe, List.filter_cons]
                simp [hv0]
              · intro k
                rw [ihm k]
                by_cases hkk : k = kv.1
                · subst hkk
                  rw [pdGet_cons_self, hv0, hrest0, pdGet_pdSet]
                  simp [hdb]
                · rw [pdGet_cons_ne kv rest k hkk, pdGet_pdSet]
                  rw [if_neg (fun hc : kv.1 = k => hkk hc.symm)]
              · intro k
                rw [ihs k]
                by_cases hkk : k = kv.1
                · subst hkk
                  rw [pdGet_cons_self, hv0, hrest0]
                  simp [hdb]
                · rw [pdGet_cons_ne kv rest k hkk]
          | some e0 =>
              have hstep : hydrateStep R (d0, s0, evs0) kv =
                  (pdSet d0 kv.1 (some e0),
                   cSetState s0 kv.1 e0 R.S.defaultTtl,
                   evs0 ++ [Event.dbGet (pyOrOpt (R.parseId kv.1) kv.1)]) := by
                unfold hydrateStep
                rw [hv0]
                dsimp only
                rw [hdb]
              rw [List.foldl_cons, hstep]
              obtain ⟨ihe, ihm, ihs⟩ := ih (pdSet d0 kv.1 (some e0))
                (cSetState s0 kv.1 e0 R.S.defaultTtl)
                (evs0 ++ [Event.dbGet (pyOrOpt (R.parseId kv.1) kv.1)]) hndr
              refine ⟨?_, ?_, ?_⟩
              · rw [ihe, List.filter_cons]
                simp [hv0]
              · intro k
                rw [ihm k]
                by_cases hkk : k = kv.1
                · subst hkk
                  rw [pdGet_cons_self, hv0, hrest0, pdGet_pdSet]
                  simp [hdb]
                · rw [pdGet_cons_ne kv rest k hkk, pdGet_pdSet]
                  rw [if_neg (fun hc : kv.1 = k => hkk hc.symm)]
              · intro k
                rw [ihs k]
                by_cases hkk : k = kv.1
                · subst hkk
                  rw [pdGet_cons_self, hv0, hrest0]
                  have h3 : stGet (cSetState s0 kv.1 e0 R.S.defaultTtl) kv.1 =
                      some ⟨RVal.str e0, some R.S.defaultTtl⟩ :=
                    stGet_stSet s0 kv.1 _
                  simp [hdb, h3]
                · rw [pdGet_cons_ne kv rest k hkk]
                  have h4 : stGet (cSetState s0 kv.1 e0 R.S.defaultTtl) k =
                      stGet s0 k :=
                    stGet_stSet_ne s0 kv.1 k _ hkk
                  rw [h4]

theorem repoGetMany_lookup (R : Repo) (st : RedisState) (keys : List String)
    (k : String) :
    pdGet (repoGetMany R st keys).1 k =
      if k ∈ keys then
        some (match pdGet (cGetMany st keys) k with
              | some (some v) => some v
              | _ => R.db (pyOrOpt (R.parseId k) k))
      else none := by
  by_cases hkeys : keys = []
  · subst hkeys
    simp [repoGetMany, pdGet]
  · unfold repoGetMany
    rw [if_neg hkeys]
    dsimp only
    rw [(hydrateLoop_char R (cGetMany st keys) (cGetMany st keys) st []
      (cGetMany_keys_nodup st keys)).2.1 k]
    rw [cGetMany_lookup st keys k]
    by_cases hm : k ∈ keys
    · rw [if_pos hm, if_pos hm]
      by_cases hbn :
          (if keys.any (fun k2 => isSetKey st k2) then none
           else decodeVal (stGetStrVal st k)) = (none : Option Jso)
      · rw [hbn]
        simp
      · obtain ⟨v2, hv2⟩ := Option.ne_none_iff_exists.mp hbn
        rw [← hv2]
        simp
    · rw [if_neg hm, if_neg hm]
      simp

/-- Claim C6: Repository.get_many returns a map whose keys are exactly
the input keys (None for unresolved ones), each key missing from the
batch cache fetch is hydrated individually with exactly one
get_from_database call per missing key (the event list is the per-key
dbGet events of the batch-missing keys, no batched access exists),
hydrated values are written to the cache under the queried key, and the
returned map is independent of the input order. -/
theorem C6_get_many_exact_keys :
    ∀ (R : Repo) (st : RedisState) (keys : List String),
      (∀ k, pdGet (repoGetMany R st keys).1 k =
        if k ∈ keys then
          some (match pdGet (cGetMany st keys) k with
                | some (some v) => some v
                | _ => R.db (pyOrOpt (R.parseId k) k))
        else none) ∧
      ((repoGetMany R st keys).2.2 =
        ((cGetMany st keys).filter (fun kv => kv.2.isNone)).map
          (fun kv => Event.dbGet (pyOrOpt (R.parseId kv.1) kv.1))) ∧
      (∀ keys2, keys.Perm keys2 →
        ∀ k, pdGet (repoGetMany R st keys2).1 k =
          pdGet (repoGetMany R st keys).1 k) ∧
      (∀ k e, pdGet (cGetMany st keys) k = some none →
        R.db (pyOrOpt (R.parseId k) k) = some e →
        stGet (repoGetMany R st keys).2.1 k =
          some ⟨RVal.str e, some R.S.defaultTtl⟩) := by
  intro R st keys
  refine ⟨repoGetMany_lookup R st keys, ?_, ?_, ?_⟩
  · by_cases hkeys : keys = []
    · subst hkeys
      have hc : cGetMany st [] = [] := rfl
      simp [repoGetMany, hc]
    · unfold repoGetMany
      rw [if_neg hkeys]
      dsimp only
      rw [(hydrateLoop_char R (cGetMany st keys) (cGetMany st keys) st []
        (cGetMany_keys_nodup st keys)).1]
      simp
  · intro keys2 hperm k
    rw [repoGetMany_lookup R st keys k, repoGetMany_lookup R st keys2 k,
      cGetMany_lookup st keys k, cGetMany_lookup st keys2 k]
    have hmem : k ∈ keys2 ↔ k ∈ keys := (hperm.mem_iff).symm
    have hany : keys.any (fun k2 => isSetKey st k2) =
        keys2.any (fun k2 => isSetKey st k2) := by
      have h12 : keys.any (fun k2 => isSetKey st k2) = true ↔
          keys2.any (fun k2 => isSetKey st k2) = true := by
        rw [List.any_eq_true, List.any_eq_true]
        constructor
        · rintro ⟨x, hx, hfx⟩
          exact ⟨x, hperm.mem_iff.mp hx, hfx⟩
        · rintro ⟨x, hx, hfx⟩
          exact ⟨x, hperm.mem_iff.mpr hx, hfx⟩
      cases h1 : keys.any (fun k2 => isSetKey st k2) <;>
        cases h2 : keys2.any (fun k2 => isSetKey st k2) <;>
        simp [h1, h2] at h12 ⊢
    by_cases hm : k ∈ keys
    · rw [if_pos hm, if_pos (hmem.mpr hm), if_pos hm, if_pos (hmem.mpr hm),
        hany]
    · rw [if_neg hm, if_neg (fun hc => hm (hmem.mp hc))]
  · intro k e hbatch hdbk
    have hk : k ∈ keys := by
      by_contra hnk
      rw [cGetMany_lookup, if_neg hnk] at hbatch
      cases hbatch
    have hne : keys ≠ [] := by
      rintro rfl
      simp at hk
    unfold repoGetMany
    rw [if_neg hne]
    dsimp only
    rw [(hydrateLoop_char R (cGetMany st keys) (cGetMany st keys) st []
      (cGetMany_keys_nodup st keys)).2.2 k, if_pos hbatch, hdbk]

/-- Witness for C6 at a concrete instance: a two-key get_many with one
cached key and one source-only key; the map holds both keys, the
source-only key was hydrated and written back with the default TTL, and
swapping the input order leaves the map pointwise unchanged. -/
theorem C6_witness :
    (let R : Repo :=
      ⟨⟨"ads", 10⟩, fun s2 => if s2 = "b" then some (Jso.str "y") else none,
       fun e => e, fun _ => none, none, fun _ _ st2 => (st2, false)⟩
     let st0 : RedisState := [("a", ⟨RVal.str (Jso.str "x"), some 9⟩)]
     pdGet (repoGetMany R st0 ["a", "b"]).1 "a" =
       some (some (Jso.str "x")) ∧
     pdGet (repoGetMany R st0 ["a", "b"]).1 "b" =
       some (some (Jso.str "y")) ∧
     stGet (repoGetMany R st0 ["a", "b"]).2.1 "b" =
       some ⟨RVal.str (Jso.str "y"), some 10⟩ ∧
     pdGet (repoGetMany R st0 ["b", "a"]).1 "a" =
       pdGet (repoGetMany R st0 ["a", "b"]).1 "a") := by
  refine ⟨?_, ?_, ?_, ?_⟩
  · exact ((C6_get_many_exact_keys _ _ ["a", "b"]).1 "a").trans (by decide)
  · exact ((C6_get_many_exact_keys _ _ ["a", "b"]).1 "b").trans (by decide)
  · exact (C6_get_many_exact_keys _ _ ["a", "b"]).2.2.2 "b" (Jso.str "y")
      (by decide) (by decide)
  · exact (C6_get_many_exact_keys _ _ ["a", "b"]).2.2.1 ["b", "a"]
      (by decide) "a"

end CacheSpec

